import Mathlib

/-!
Shallow embedding of the Synergy Squares game coordinator
(src/public/app.js, server part).

The server keeps four pieces of mutable state:
  players        - the durable player directory, loaded from players.json;
  currentLevel   - the board level, starting at 1;
  squaresCount   - the number of squares, starting at 4;
  occupied       - a JS object mapping square index to player id;
  playersOnline  - a JS object mapping player id to an online-player record.

JS objects are modelled as association lists with unique keys kept in
insertion order (JS preserves insertion order for the string keys used by
playersOnline; for occupied only lookup, length and delete are ever used,
so entry order is irrelevant).  A JS number supplied as squareIndex is
modelled as a rational: handleHold checks only typeof squareIndex ===
"number" and the range bounds, so non-integer indices flow through, which
the model must be able to express.  Missing or falsy request fields
(`if (!playerId)`) are modelled by the empty string.  The HTTP layer
(JSON parsing, status codes) is out of scope; each handler is a pure
function from state and request fields to (new state, response).
-/

namespace SynergySquares

/-- Lookup in a JS-object-as-association-list: first entry with the key. -/
def alistLookup {α β : Type} [DecidableEq α] : List (α × β) → α → Option β
  | [], _ => none
  | (k0, v0) :: rest, k => if k0 = k then some v0 else alistLookup rest k

/-- `obj[k] = v`: replace the value at the first entry with key `k`,
or append a new entry when the key is absent. -/
def alistInsert {α β : Type} [DecidableEq α] : List (α × β) → α → β → List (α × β)
  | [], k, v => [(k, v)]
  | (k0, v0) :: rest, k, v =>
    if k0 = k then (k0, v) :: rest else (k0, v0) :: alistInsert rest k v

/-- `delete obj[k]`: drop the first entry with key `k`. -/
def alistErase {α β : Type} [DecidableEq α] : List (α × β) → α → List (α × β)
  | [], _ => []
  | (k0, v0) :: rest, k => if k0 = k then rest else (k0, v0) :: alistErase rest k

theorem alistLookup_insert_self {α β : Type} [DecidableEq α]
    (l : List (α × β)) (k : α) (v : β) :
    alistLookup (alistInsert l k v) k = some v := by
  induction l with
  | nil => simp [alistInsert, alistLookup]
  | cons e rest ih =>
    obtain ⟨k0, v0⟩ := e
    by_cases h : k0 = k
    · simp [alistInsert, alistLookup, h]
    · simp [alistInsert, alistLookup, h, ih]

theorem alistLookup_insert_ne {α β : Type} [DecidableEq α]
    (l : List (α × β)) (k k' : α) (v : β) (h : k' ≠ k) :
    alistLookup (alistInsert l k v) k' = alistLookup l k' := by
  induction l with
  | nil => simp [alistInsert, alistLookup, Ne.symm h]
  | cons e rest ih =>
    obtain ⟨k0, v0⟩ := e
    by_cases he : k0 = k
    · subst he
      simp [alistInsert, alistLookup, Ne.symm h]
    · simp only [alistInsert, if_neg he, alistLookup]
      rw [ih]

theorem alistLookup_eq_none_iff {α β : Type} [DecidableEq α]
    (l : List (α × β)) (k : α) :
    alistLookup l k = none ↔ k ∉ l.map Prod.fst := by
  induction l with
  | nil => simp [alistLookup]
  | cons e rest ih =>
    obtain ⟨k0, v0⟩ := e
    by_cases h : k0 = k
    · subst h
      simp [alistLookup]
    · simp [alistLookup, h, ih, Ne.symm h]

theorem alistLookup_mem {α β : Type} [DecidableEq α]
    {l : List (α × β)} {k : α} {v : β} (h : alistLookup l k = some v) :
    (k, v) ∈ l := by
  induction l with
  | nil => simp [alistLookup] at h
  | cons e rest ih =>
    obtain ⟨k0, v0⟩ := e
    by_cases he : k0 = k
    · subst he
      simp [alistLookup] at h
      subst h
      exact List.mem_cons_self _ _
    · simp [alistLookup, he] at h
      exact List.mem_cons_of_mem _ (ih h)

theorem alistLookup_of_mem_nodup {α β : Type} [DecidableEq α]
    {l : List (α × β)} (hnd : (l.map Prod.fst).Nodup)
    {k : α} {v : β} (h : (k, v) ∈ l) :
    alistLookup l k = some v := by
  induction l with
  | nil => simp at h
  | cons e rest ih =>
    obtain ⟨k0, v0⟩ := e
    simp only [List.map_cons, List.nodup_cons] at hnd
    rcases List.mem_cons.mp h with h1 | h1
    · obtain ⟨hk, hv⟩ := Prod.mk.injEq .. ▸ h1
      simp [alistLookup, hk.symm, hv]
    · have hk : k0 ≠ k := by
        intro hkk
        subst hkk
        exact hnd.1 (List.mem_map.mpr ⟨(k0, v), h1, rfl⟩)
      simp [alistLookup, hk, ih hnd.2 h1]

theorem alistInsert_eq_append {α β : Type} [DecidableEq α]
    {l : List (α × β)} {k : α} (v : β) (h : alistLookup l k = none) :
    alistInsert l k v = l ++ [(k, v)] := by
  induction l with
  | nil => simp [alistInsert]
  | cons e rest ih =>
    obtain ⟨k0, v0⟩ := e
    by_cases he : k0 = k
    · simp [alistLookup, he] at h
    · simp only [alistLookup, if_neg he] at h
      simp [alistInsert, he, ih h]

theorem alistInsert_keys_of_mem {α β : Type} [DecidableEq α]
    {l : List (α × β)} {k : α} (v : β) (h : alistLookup l k ≠ none) :
    (alistInsert l k v).map Prod.fst = l.map Prod.fst := by
  induction l with
  | nil => simp [alistLookup] at h
  | cons e rest ih =>
    obtain ⟨k0, v0⟩ := e
    by_cases he : k0 = k
    · simp [alistInsert, he]
    · simp only [alistLookup, if_neg he] at h
      simp [alistInsert, he, ih h]

theorem alistInsert_length_of_mem {α β : Type} [DecidableEq α]
    {l : List (α × β)} {k : α} (v : β) (h : alistLookup l k ≠ none) :
    (alistInsert l k v).length = l.length := by
  have := alistInsert_keys_of_mem (l := l) (k := k) v h
  have h1 : ((alistInsert l k v).map Prod.fst).length = (l.map Prod.fst).length := by
    rw [this]
  simpa using h1

theorem alistInsert_nodup {α β : Type} [DecidableEq α]
    {l : List (α × β)} (hnd : (l.map Prod.fst).Nodup) (k : α) (v : β) :
    ((alistInsert l k v).map Prod.fst).Nodup := by
  by_cases h : alistLookup l k = none
  · rw [alistInsert_eq_append v h]
    have hk : k ∉ l.map Prod.fst := (alistLookup_eq_none_iff l k).mp h
    simp [List.nodup_append, hnd, hk]
  · rw [alistInsert_keys_of_mem v h]
    exact hnd

theorem mem_alistInsert {α β : Type} [DecidableEq α]
    {l : List (α × β)} {k : α} {v : β} {e : α × β}
    (h : e ∈ alistInsert l k v) :
    e = (k, v) ∨ e ∈ l := by
  induction l with
  | nil => simp [alistInsert] at h; simp [h]
  | cons e0 rest ih =>
    obtain ⟨k0, v0⟩ := e0
    by_cases he : k0 = k
    · simp only [alistInsert, if_pos he] at h
      rcases List.mem_cons.mp h with h1 | h1
      · left; rw [h1, he]
      · right; exact List.mem_cons_of_mem _ h1
    · simp only [alistInsert, if_neg he] at h
      rcases List.mem_cons.mp h with h1 | h1
      · right; rw [h1]; exact List.mem_cons_self _ _
      · rcases ih h1 with h2 | h2
        · left; exact h2
        · right; exact List.mem_cons_of_mem _ h2

theorem mem_alistInsert_iff {α β : Type} [DecidableEq α]
    {l : List (α × β)} (hnd : (l.map Prod.fst).Nodup) (k : α) (v : β) (e : α × β) :
    e ∈ alistInsert l k v ↔ e = (k, v) ∨ (e ∈ l ∧ e.1 ≠ k) := by
  obtain ⟨e1, e2⟩ := e
  constructor
  · intro h
    rcases mem_alistInsert h with h1 | h1
    · exact Or.inl h1
    · by_cases he : e1 = k
      · subst he
        left
        have hins : ((alistInsert l e1 v).map Prod.fst).Nodup :=
          alistInsert_nodup hnd e1 v
        have h2 := alistLookup_of_mem_nodup hins h
        rw [alistLookup_insert_self l e1 v] at h2
        have hv2 : e2 = v := by injection h2 with h3; exact h3.symm
        rw [hv2]
      · exact Or.inr ⟨h1, he⟩
  · intro h
    rcases h with h1 | ⟨h1, h2⟩
    · rw [h1]
      exact alistLookup_mem (alistLookup_insert_self l k v)
    · have h3 : alistLookup l e1 = some e2 := alistLookup_of_mem_nodup hnd h1
      have hl : alistLookup (alistInsert l k v) e1 = some e2 := by
        rw [alistLookup_insert_ne l k e1 v h2]
        exact h3
      exact alistLookup_mem hl

theorem alistErase_sublist {α β : Type} [DecidableEq α]
    (l : List (α × β)) (k : α) :
    (alistErase l k).Sublist l := by
  induction l with
  | nil => simp [alistErase]
  | cons e rest ih =>
    obtain ⟨k0, v0⟩ := e
    by_cases he : k0 = k
    · simp only [alistErase, if_pos he]
      exact List.sublist_cons_self _ _
    · simp only [alistErase, if_neg he]
      exact List.Sublist.cons₂ _ ih

theorem alistErase_nodup {α β : Type} [DecidableEq α]
    {l : List (α × β)} (hnd : (l.map Prod.fst).Nodup) (k : α) :
    ((alistErase l k).map Prod.fst).Nodup :=
  ((alistErase_sublist l k).map Prod.fst).nodup hnd

theorem mem_alistErase {α β : Type} [DecidableEq α]
    {l : List (α × β)} {k : α} {e : α × β} (h : e ∈ alistErase l k) :
    e ∈ l :=
  (alistErase_sublist l k).mem h

theorem alistLookup_erase_self {α β : Type} [DecidableEq α]
    {l : List (α × β)} (hnd : (l.map Prod.fst).Nodup) (k : α) :
    alistLookup (alistErase l k) k = none := by
  induction l with
  | nil => simp [alistErase, alistLookup]
  | cons e rest ih =>
    obtain ⟨k0, v0⟩ := e
    simp only [List.map_cons, List.nodup_cons] at hnd
    by_cases he : k0 = k
    · simp only [alistErase, if_pos he]
      rw [alistLookup_eq_none_iff]
      intro hk
      exact hnd.1 (he ▸ hk)
    · simp only [alistErase, if_neg he, alistLookup]
      exact ih hnd.2

theorem alistLookup_erase_ne {α β : Type} [DecidableEq α]
    (l : List (α × β)) (k k' : α) (h : k' ≠ k) :
    alistLookup (alistErase l k) k' = alistLookup l k' := by
  induction l with
  | nil => simp [alistErase]
  | cons e rest ih =>
    obtain ⟨k0, v0⟩ := e
    by_cases he : k0 = k
    · subst he
      simp [alistErase, alistLookup, Ne.symm h]
    · by_cases he' : k0 = k'
      · subst he'
        simp [alistErase, alistLookup, he]
      · simp [alistErase, alistLookup, he, he', ih]

/-- A durable directory entry (players.json).  The email and password
fields exist in the source but are read only by the registration and
login endpoints, which are outside the modelled core. -/
structure Player where
  id : String
  nickname : String
  country : String
  role : String
  levelsCompleted : Nat
  deriving DecidableEq, Repr

/-- A transient presence entry (one value of the playersOnline object). -/
structure OnlinePlayer where
  id : String
  nickname : String
  country : String
  role : String
  levelsCompleted : Nat
  squareIndex : Option ℚ
  deriving DecidableEq, Repr

/-- The server's whole mutable state. -/
structure GameState where
  players : List Player
  currentLevel : Nat
  squaresCount : Nat
  occupied : List (ℚ × String)
  playersOnline : List (String × OnlinePlayer)
  deriving DecidableEq, Repr

/-- One entry of the players list of a board snapshot: the source maps
each online player to `{id, nickname, country, squareIndex}`. -/
structure BoardPlayer where
  id : String
  nickname : String
  country : String
  squareIndex : Option ℚ
  deriving DecidableEq, Repr

/-- The board snapshot sent to clients by every endpoint. -/
structure BoardState where
  level : Nat
  squaresCount : Nat
  occupied : List (ℚ × String)
  players : List BoardPlayer
  deriving DecidableEq, Repr

/-- `players.find((p) => p.id === id)` on a directory list: the first
entry whose id matches. -/
def findPlayer : List Player → String → Option Player
  | [], _ => none
  | st :: rest, pid => if st.id = pid then some st else findPlayer rest pid

/-- `getPlayerById(id)` reads the module-level players array. -/
def getPlayerById (s : GameState) (pid : String) : Option Player :=
  findPlayer s.players pid

/-- `levelsCompleted += 1` on a directory entry. -/
def bumpStored (st : Player) : Player :=
  { st with levelsCompleted := st.levelsCompleted + 1 }

/-- `levelsCompleted += 1` on an online record. -/
def bumpOnline (p : OnlinePlayer) : OnlinePlayer :=
  { p with levelsCompleted := p.levelsCompleted + 1 }

/-- The object literal ensureOnline stores for a first-time joiner. -/
def freshOnline (stored : Player) : OnlinePlayer :=
  { id := stored.id
    nickname := stored.nickname
    country := stored.country
    role := stored.role
    levelsCompleted := stored.levelsCompleted
    squareIndex := none }

/-- Build board state to send to clients (source: getBoardState). -/
def getBoardState (s : GameState) : BoardState :=
  { level := s.currentLevel
    squaresCount := s.squaresCount
    occupied := s.occupied
    players := s.playersOnline.map (fun e =>
      { id := e.2.id
        nickname := e.2.nickname
        country := e.2.country
        squareIndex := e.2.squareIndex }) }

/-- Check whether the current level is complete (source:
checkLevelCompletion): all squares occupied and exactly squaresCount
players online. -/
def checkLevelCompletion (s : GameState) : Bool :=
  s.occupied.length = s.squaresCount && s.playersOnline.length = s.squaresCount

/-- `getPlayerById(p.id).levelsCompleted += 1`: bump the first directory
entry with the given id, if any (source: completeLevel, stored update). -/
def creditStored : List Player → String → List Player
  | [], _ => []
  | st :: rest, pid =>
    if st.id = pid then bumpStored st :: rest
    else st :: creditStored rest pid

/-- The crediting loop of completeLevel: for every online player holding
a square, bump the durable directory entry and the transient counter. -/
def creditHolders : List Player → List (String × OnlinePlayer) →
    List Player × List (String × OnlinePlayer)
  | ps, [] => (ps, [])
  | ps, (k, p) :: rest =>
    match p.squareIndex with
    | none =>
      let r := creditHolders ps rest
      (r.1, (k, p) :: r.2)
    | some _ =>
      let r := creditHolders (creditStored ps p.id) rest
      (r.1, (k, bumpOnline p) :: r.2)

/-- Handle completion of the level (source: completeLevel): credit every
holding player durably and transiently, save the directory (savePlayers,
the durability point - in this pure model the updated players field is
the saved file), advance the level, double the squares, clear occupancy
and clear every online player's held square. -/
def completeLevel (s : GameState) : GameState :=
  let r := creditHolders s.players s.playersOnline
  { players := r.1
    currentLevel := s.currentLevel + 1
    squaresCount := s.squaresCount * 2
    occupied := []
    playersOnline := r.2.map (fun e => (e.1, { e.2 with squareIndex := none })) }

/-- JS truthiness of `occupied[squareIndex]`: a present, non-empty id. -/
def jsTruthy (o : Option String) : Bool :=
  o.getD "" ≠ ""

/-- Register a player as online if the directory knows the id (source:
ensureOnline).  Returns the possibly-extended state together with the
online record (none when the id is not in the directory). -/
def ensureOnline (s : GameState) (pid : String) : GameState × Option OnlinePlayer :=
  match getPlayerById s pid with
  | none => (s, none)
  | some stored =>
    match alistLookup s.playersOnline pid with
    | some p => (s, some p)
    | none =>
      let p := freshOnline stored
      ({ s with playersOnline := alistInsert s.playersOnline pid p }, some p)

/-- Responses of the hold endpoint, one constructor per writeJson call of
the source's handleHold (the invalid-JSON transport error is out of
scope).  Spec names: unknownPlayer is the directory miss, invalidSquare
for invalidSquareIndex, admissionClosed for notEnoughPlayers,
alreadyHolding for alreadyHoldsSquare, squareTaken for
squareAlreadyOccupied. -/
inductive HoldResponse where
  | missingParameters
  | unknownPlayer
  | invalidSquareIndex
  | notEnoughPlayers
  | alreadyHoldsSquare
  | squareAlreadyOccupied
  | success (board : BoardState) (levelCompleted : Bool)
  deriving DecidableEq, Repr

/-- The two assignment lines of a passing hold:
`occupied[squareIndex] = player.id; player.squareIndex = squareIndex`. -/
def holdAssign (s1 : GameState) (playerId : String) (squareIndex : ℚ)
    (player : OnlinePlayer) : GameState :=
  { s1 with
    occupied := alistInsert s1.occupied squareIndex player.id
    playersOnline := alistInsert s1.playersOnline playerId
      { player with squareIndex := some squareIndex } }

/-- Handle hold square endpoint (source: handleHold). -/
def handleHold (s : GameState) (playerId : String) (squareIndex : ℚ) :
    GameState × HoldResponse :=
  if playerId = "" then (s, .missingParameters)
  else
    match ensureOnline s playerId with
    | (s1, none) => (s1, .unknownPlayer)
    | (s1, some player) =>
      if squareIndex < 0 ∨ (s1.squaresCount : ℚ) ≤ squareIndex then
        (s1, .invalidSquareIndex)
      else if s1.playersOnline.length ≠ s1.squaresCount then
        (s1, .notEnoughPlayers)
      else if player.squareIndex ≠ none then
        (s1, .alreadyHoldsSquare)
      else if jsTruthy (alistLookup s1.occupied squareIndex) then
        (s1, .squareAlreadyOccupied)
      else
        let s2 := holdAssign s1 playerId squareIndex player
        if checkLevelCompletion s2 then
          let s3 := completeLevel s2
          (s3, .success (getBoardState s3) true)
        else
          (s2, .success (getBoardState s2) false)

/-- Responses of the release endpoint. -/
inductive ReleaseResponse where
  | missingPlayerId
  | playerNotOnline
  | success (board : BoardState)
  deriving DecidableEq, Repr

/-- Handle release square endpoint (source: handleRelease). -/
def handleRelease (s : GameState) (playerId : String) :
    GameState × ReleaseResponse :=
  if playerId = "" then (s, .missingPlayerId)
  else
    match alistLookup s.playersOnline playerId with
    | none => (s, .playerNotOnline)
    | some player =>
      match player.squareIndex with
      | none => (s, .success (getBoardState s))
      | some idx =>
        let s2 : GameState :=
          { s with
            occupied := alistErase s.occupied idx
            playersOnline := alistInsert s.playersOnline playerId
              { player with squareIndex := none } }
        (s2, .success (getBoardState s2))

/-- Responses of the join endpoint. -/
inductive JoinResponse where
  | missingPlayerId
  | unknownPlayer
  | success (board : BoardState)
  deriving DecidableEq, Repr

/-- Handle join endpoint (source: handleJoin). -/
def handleJoin (s : GameState) (playerId : String) :
    GameState × JoinResponse :=
  if playerId = "" then (s, .missingPlayerId)
  else
    match ensureOnline s playerId with
    | (s1, none) => (s1, .unknownPlayer)
    | (s1, some _) => (s1, .success (getBoardState s1))

/-- Handle board state request (source: handleBoard): a pure read. -/
def handleBoard (s : GameState) : BoardState :=
  getBoardState s

/-- The server's state at startup: the directory loaded from disk, level
1, four squares, nothing occupied, nobody online. -/
def initialState (dir : List Player) : GameState :=
  { players := dir
    currentLevel := 1
    squaresCount := 4
    occupied := []
    playersOnline := [] }

/-! ### Lemmas about the player directory and the crediting loop -/

/-- `k` currently holds a square according to an online map. -/
def isHolder (os : List (String × OnlinePlayer)) (k : String) : Bool :=
  match alistLookup os k with
  | some p => p.squareIndex.isSome
  | none => false

theorem findPlayer_id {ps : List Player} {pid : String} {st : Player}
    (h : findPlayer ps pid = some st) : st.id = pid := by
  induction ps with
  | nil => simp [findPlayer] at h
  | cons st0 rest ih =>
    by_cases h0 : st0.id = pid
    · simp [findPlayer, h0] at h
      rw [← h, h0]
    · simp [findPlayer, h0] at h
      exact ih h

theorem findPlayer_creditStored (ps : List Player) (t k : String) :
    findPlayer (creditStored ps t) k =
      if k = t then (findPlayer ps k).map bumpStored else findPlayer ps k := by
  induction ps with
  | nil => simp [creditStored, findPlayer]
  | cons st rest ih =>
    by_cases ht : st.id = t
    · by_cases hk : k = t
      · subst hk
        simp [creditStored, findPlayer, ht, bumpStored]
      · have hid : ¬ st.id = k := by rw [ht]; exact fun h => hk h.symm
        have htk : ¬ t = k := fun h => hk h.symm
        simp [creditStored, findPlayer, ht, hid, hk, htk, bumpStored]
    · by_cases hid : st.id = k
      · have hk : ¬ k = t := by rw [← hid]; exact ht
        simp [creditStored, findPlayer, ht, hid, hk]
      · simp [creditStored, findPlayer, ht, hid, ih]

theorem creditHolders_snd (ps : List Player) (os : List (String × OnlinePlayer)) :
    (creditHolders ps os).2 =
      os.map (fun e => if e.2.squareIndex.isSome then (e.1, bumpOnline e.2) else e) := by
  induction os generalizing ps with
  | nil => simp [creditHolders]
  | cons e rest ih =>
    obtain ⟨k, p⟩ := e
    cases hsq : p.squareIndex with
    | none => simp [creditHolders, hsq, ih]
    | some i => simp [creditHolders, hsq, ih]

theorem creditHolders_fst (ps : List Player) (os : List (String × OnlinePlayer))
    (hnd : (os.map Prod.fst).Nodup) (hid : ∀ e ∈ os, e.2.id = e.1) (k : String) :
    findPlayer (creditHolders ps os).1 k =
      if isHolder os k then (findPlayer ps k).map bumpStored else findPlayer ps k := by
  induction os generalizing ps with
  | nil => simp [creditHolders, isHolder, alistLookup]
  | cons e rest ih =>
    obtain ⟨k0, p⟩ := e
    simp only [List.map_cons, List.nodup_cons] at hnd
    have hid0 : p.id = k0 := hid (k0, p) (List.mem_cons_self _ _)
    have hidr : ∀ e ∈ rest, e.2.id = e.1 := fun e he => hid e (List.mem_cons_of_mem _ he)
    cases hsq : p.squareIndex with
    | none =>
      by_cases hk : k = k0
      · subst hk
        have hrest : alistLookup rest k = none :=
          (alistLookup_eq_none_iff rest k).mpr hnd.1
        simp [creditHolders, hsq, ih ps hnd.2 hidr, isHolder, alistLookup, hrest]
      · have hk' : k0 ≠ k := fun h => hk h.symm
        simp [creditHolders, hsq, ih ps hnd.2 hidr, isHolder, alistLookup, hk']
    | some i =>
      by_cases hk : k = k0
      · subst hk
        have hrest : alistLookup rest k = none :=
          (alistLookup_eq_none_iff rest k).mpr hnd.1
        simp [creditHolders, hsq, hid0, ih (creditStored ps k) hnd.2 hidr, isHolder,
          alistLookup, hrest, findPlayer_creditStored]
      · have hk' : k0 ≠ k := fun h => hk h.symm
        simp [creditHolders, hsq, hid0, ih (creditStored ps k0) hnd.2 hidr, isHolder,
          alistLookup, hk', findPlayer_creditStored, hk]

/-! ### Lemmas about ensureOnline -/

theorem ensureOnline_of_unknown {s : GameState} {pid : String}
    (h : getPlayerById s pid = none) : ensureOnline s pid = (s, none) := by
  simp [ensureOnline, h]

theorem ensureOnline_of_online {s : GameState} {pid : String} {st : Player}
    {p : OnlinePlayer} (hst : getPlayerById s pid = some st)
    (hp : alistLookup s.playersOnline pid = some p) :
    ensureOnline s pid = (s, some p) := by
  simp [ensureOnline, hst, hp]

theorem ensureOnline_of_fresh {s : GameState} {pid : String} {st : Player}
    (hst : getPlayerById s pid = some st)
    (hp : alistLookup s.playersOnline pid = none) :
    ensureOnline s pid =
      ({ s with playersOnline := alistInsert s.playersOnline pid (freshOnline st) },
        some (freshOnline st)) := by
  simp [ensureOnline, hst, hp]

theorem ensureOnline_none {s s1 : GameState} {pid : String}
    (h : ensureOnline s pid = (s1, none)) :
    s1 = s ∧ getPlayerById s pid = none := by
  cases hst : getPlayerById s pid with
  | none =>
    rw [ensureOnline_of_unknown hst] at h
    rw [Prod.ext_iff] at h
    exact ⟨h.1.symm, rfl⟩
  | some st =>
    cases hp : alistLookup s.playersOnline pid with
    | none =>
      rw [ensureOnline_of_fresh hst hp] at h
      rw [Prod.ext_iff] at h
      exact absurd h.2 (by simp)
    | some p =>
      rw [ensureOnline_of_online hst hp] at h
      rw [Prod.ext_iff] at h
      exact absurd h.2 (by simp)

theorem ensureOnline_some {s s1 : GameState} {pid : String} {player : OnlinePlayer}
    (h : ensureOnline s pid = (s1, some player)) :
    ∃ st, getPlayerById s pid = some st ∧
      ((alistLookup s.playersOnline pid = some player ∧ s1 = s) ∨
       (alistLookup s.playersOnline pid = none ∧ player = freshOnline st ∧
        s1 = { s with playersOnline := alistInsert s.playersOnline pid (freshOnline st) })) := by
  cases hst : getPlayerById s pid with
  | none =>
    rw [ensureOnline_of_unknown hst] at h
    rw [Prod.ext_iff] at h
    exact absurd h.2 (by simp)
  | some st =>
    refine ⟨st, rfl, ?_⟩
    cases hp : alistLookup s.playersOnline pid with
    | none =>
      rw [ensureOnline_of_fresh hst hp] at h
      rw [Prod.ext_iff] at h
      right
      refine ⟨rfl, ?_, h.1.symm⟩
      have h3 := h.2
      injection h3 with h4
      exact h4.symm
    | some p =>
      rw [ensureOnline_of_online hst hp] at h
      rw [Prod.ext_iff] at h
      left
      have h3 := h.2
      injection h3 with h4
      exact ⟨by rw [h4], h.1.symm⟩

theorem ensureOnline_fields (s : GameState) (pid : String) :
    (ensureOnline s pid).1.players = s.players ∧
    (ensureOnline s pid).1.currentLevel = s.currentLevel ∧
    (ensureOnline s pid).1.squaresCount = s.squaresCount ∧
    (ensureOnline s pid).1.occupied = s.occupied := by
  cases hst : getPlayerById s pid with
  | none => rw [ensureOnline_of_unknown hst]; exact ⟨rfl, rfl, rfl, rfl⟩
  | some st =>
    cases hp : alistLookup s.playersOnline pid with
    | none => rw [ensureOnline_of_fresh hst hp]; exact ⟨rfl, rfl, rfl, rfl⟩
    | some p => rw [ensureOnline_of_online hst hp]; exact ⟨rfl, rfl, rfl, rfl⟩

theorem ensureOnline_lookup {s s1 : GameState} {pid : String} {player : OnlinePlayer}
    (h : ensureOnline s pid = (s1, some player)) :
    alistLookup s1.playersOnline pid = some player := by
  obtain ⟨st, hst, hcase⟩ := ensureOnline_some h
  rcases hcase with ⟨hp, rfl⟩ | ⟨hp, hpl, rfl⟩
  · exact hp
  · rw [hpl]
    exact alistLookup_insert_self ..

/-! ### Branch equations for the three handlers -/

theorem handleHold_eq_missing {s : GameState} {pid : String} {x : ℚ}
    (hpid : pid = "") : handleHold s pid x = (s, .missingParameters) := by
  simp [handleHold, hpid]

theorem handleHold_eq_unknown {s s1 : GameState} {pid : String} {x : ℚ}
    (hpid : pid ≠ "") (h1 : ensureOnline s pid = (s1, none)) :
    handleHold s pid x = (s1, .unknownPlayer) := by
  simp [handleHold, hpid, h1]

theorem handleHold_eq_invalid {s s1 : GameState} {pid : String} {x : ℚ}
    {player : OnlinePlayer} (hpid : pid ≠ "")
    (h1 : ensureOnline s pid = (s1, some player))
    (hb : x < 0 ∨ (s1.squaresCount : ℚ) ≤ x) :
    handleHold s pid x = (s1, .invalidSquareIndex) := by
  simp [handleHold, hpid, h1, hb]

theorem handleHold_eq_closed {s s1 : GameState} {pid : String} {x : ℚ}
    {player : OnlinePlayer} (hpid : pid ≠ "")
    (h1 : ensureOnline s pid = (s1, some player))
    (hb : ¬ (x < 0 ∨ (s1.squaresCount : ℚ) ≤ x))
    (hc : s1.playersOnline.length ≠ s1.squaresCount) :
    handleHold s pid x = (s1, .notEnoughPlayers) := by
  simp [handleHold, hpid, h1, hb, hc]

theorem handleHold_eq_already {s s1 : GameState} {pid : String} {x : ℚ}
    {player : OnlinePlayer} (hpid : pid ≠ "")
    (h1 : ensureOnline s pid = (s1, some player))
    (hb : ¬ (x < 0 ∨ (s1.squaresCount : ℚ) ≤ x))
    (hc : s1.playersOnline.length = s1.squaresCount)
    (hh : player.squareIndex ≠ none) :
    handleHold s pid x = (s1, .alreadyHoldsSquare) := by
  simp [handleHold, hpid, h1, hb, hc, hh]

theorem handleHold_eq_taken {s s1 : GameState} {pid : String} {x : ℚ}
    {player : OnlinePlayer} (hpid : pid ≠ "")
    (h1 : ensureOnline s pid = (s1, some player))
    (hb : ¬ (x < 0 ∨ (s1.squaresCount : ℚ) ≤ x))
    (hc : s1.playersOnline.length = s1.squaresCount)
    (hh : player.squareIndex = none)
    (ht : jsTruthy (alistLookup s1.occupied x) = true) :
    handleHold s pid x = (s1, .squareAlreadyOccupied) := by
  simp [handleHold, hpid, h1, hb, hc, hh, ht]

theorem handleHold_eq_pass {s s1 : GameState} {pid : String} {x : ℚ}
    {player : OnlinePlayer} (hpid : pid ≠ "")
    (h1 : ensureOnline s pid = (s1, some player))
    (hb : ¬ (x < 0 ∨ (s1.squaresCount : ℚ) ≤ x))
    (hc : s1.playersOnline.length = s1.squaresCount)
    (hh : player.squareIndex = none)
    (ht : jsTruthy (alistLookup s1.occupied x) = false) :
    handleHold s pid x =
      (if checkLevelCompletion (holdAssign s1 pid x player) then
        (completeLevel (holdAssign s1 pid x player),
          .success (getBoardState (completeLevel (holdAssign s1 pid x player))) true)
      else
        (holdAssign s1 pid x player,
          .success (getBoardState (holdAssign s1 pid x player)) false)) := by
  by_cases hcl : checkLevelCompletion (holdAssign s1 pid x player) = true
  · simp [handleHold, hpid, h1, hb, hc, hh, ht, hcl]
  · simp only [Bool.not_eq_true] at hcl
    simp [handleHold, hpid, h1, hb, hc, hh, ht, hcl]

theorem handleRelease_eq_missing {s : GameState} {pid : String}
    (hpid : pid = "") : handleRelease s pid = (s, .missingPlayerId) := by
  simp [handleRelease, hpid]

theorem handleRelease_eq_offline {s : GameState} {pid : String}
    (hpid : pid ≠ "") (h1 : alistLookup s.playersOnline pid = none) :
    handleRelease s pid = (s, .playerNotOnline) := by
  simp [handleRelease, hpid, h1]

theorem handleRelease_eq_noop {s : GameState} {pid : String}
    {player : OnlinePlayer} (hpid : pid ≠ "")
    (h1 : alistLookup s.playersOnline pid = some player)
    (hh : player.squareIndex = none) :
    handleRelease s pid = (s, .success (getBoardState s)) := by
  simp [handleRelease, hpid, h1, hh]

theorem handleRelease_eq_clear {s : GameState} {pid : String}
    {player : OnlinePlayer} {idx : ℚ} (hpid : pid ≠ "")
    (h1 : alistLookup s.playersOnline pid = some player)
    (hh : player.squareIndex = some idx) :
    handleRelease s pid =
      ({ s with
          occupied := alistErase s.occupied idx
          playersOnline := alistInsert s.playersOnline pid
            { player with squareIndex := none } },
        .success (getBoardState
          { s with
            occupied := alistErase s.occupied idx
            playersOnline := alistInsert s.playersOnline pid
              { player with squareIndex := none } })) := by
  simp [handleRelease, hpid, h1, hh]

theorem handleJoin_eq_missing {s : GameState} {pid : String}
    (hpid : pid = "") : handleJoin s pid = (s, .missingPlayerId) := by
  simp [handleJoin, hpid]

theorem handleJoin_eq_unknown {s s1 : GameState} {pid : String}
    (hpid : pid ≠ "") (h1 : ensureOnline s pid = (s1, none)) :
    handleJoin s pid = (s1, .unknownPlayer) := by
  simp [handleJoin, hpid, h1]

theorem handleJoin_eq_some {s s1 : GameState} {pid : String}
    {player : OnlinePlayer} (hpid : pid ≠ "")
    (h1 : ensureOnline s pid = (s1, some player)) :
    handleJoin s pid = (s1, .success (getBoardState s1)) := by
  simp [handleJoin, hpid, h1]

/-! ### The state invariant -/

/-- Well-formedness of a server state: the two JS objects have unique
keys, every online record's id equals its key and is non-empty, the
occupancy map and the held squares are bidirectionally consistent, and
every online player exists in the durable directory. -/
structure WF (s : GameState) : Prop where
  occNodup : (s.occupied.map Prod.fst).Nodup
  onlineNodup : (s.playersOnline.map Prod.fst).Nodup
  idKey : ∀ e ∈ s.playersOnline, e.2.id = e.1
  keyNe : ∀ e ∈ s.playersOnline, e.1 ≠ ""
  occOnline : ∀ e ∈ s.occupied,
    ∃ p, alistLookup s.playersOnline e.2 = some p ∧ p.squareIndex = some e.1
  onlineOcc : ∀ e ∈ s.playersOnline, ∀ i, e.2.squareIndex = some i →
    alistLookup s.occupied i = some e.1
  dir : ∀ e ∈ s.playersOnline, (getPlayerById s e.1).isSome

theorem WF_initialState (d : List Player) : WF (initialState d) := by
  constructor <;> simp [initialState]

theorem WF.occValueNe {s : GameState} (hWF : WF s) :
    ∀ e ∈ s.occupied, e.2 ≠ "" := by
  intro e he
  obtain ⟨p, hp, _⟩ := hWF.occOnline e he
  exact hWF.keyNe (e.2, p) (alistLookup_mem hp)

theorem WF.jsTruthy_false {s : GameState} (hWF : WF s) {x : ℚ}
    (h : jsTruthy (alistLookup s.occupied x) = false) :
    alistLookup s.occupied x = none := by
  cases hl : alistLookup s.occupied x with
  | none => rfl
  | some v =>
    have hv : v ≠ "" := hWF.occValueNe (x, v) (alistLookup_mem hl)
    rw [hl] at h
    simp [jsTruthy] at h
    exact absurd h hv

theorem WF.jsTruthy_none {s : GameState} {x : ℚ}
    (h : alistLookup s.occupied x = none) :
    jsTruthy (alistLookup s.occupied x) = false := by
  rw [h]
  simp [jsTruthy]

/-- The looked-up online record of a well-formed state has the key as
its id. -/
theorem WF.lookup_id {s : GameState} (hWF : WF s) {pid : String}
    {p : OnlinePlayer} (h : alistLookup s.playersOnline pid = some p) :
    p.id = pid :=
  hWF.idKey (pid, p) (alistLookup_mem h)

/-! ### Preservation of the invariant -/

theorem WF_ensureOnline {s : GameState} (hWF : WF s) {pid : String}
    (hpid : pid ≠ "") : WF (ensureOnline s pid).1 := by
  cases hst : getPlayerById s pid with
  | none => rw [ensureOnline_of_unknown hst]; exact hWF
  | some st =>
    cases hp : alistLookup s.playersOnline pid with
    | some p => rw [ensureOnline_of_online hst hp]; exact hWF
    | none =>
      rw [ensureOnline_of_fresh hst hp]
      have hstid : st.id = pid := findPlayer_id hst
      constructor
      · exact hWF.occNodup
      · exact alistInsert_nodup hWF.onlineNodup pid (freshOnline st)
      · intro e he
        rcases mem_alistInsert he with h1 | h1
        · rw [h1]
          simp [freshOnline, hstid]
        · exact hWF.idKey e h1
      · intro e he
        rcases mem_alistInsert he with h1 | h1
        · rw [h1]; exact hpid
        · exact hWF.keyNe e h1
      · intro e he
        obtain ⟨p, hp2, hsq⟩ := hWF.occOnline e he
        have hne : e.2 ≠ pid := by
          intro hcontra
          rw [hcontra, hp] at hp2
          exact absurd hp2 (by simp)
        refine ⟨p, ?_, hsq⟩
        rw [alistLookup_insert_ne _ _ _ _ hne]
        exact hp2
      · intro e he i hsq
        rcases mem_alistInsert he with h1 | h1
        · rw [h1] at hsq
          simp [freshOnline] at hsq
        · exact hWF.onlineOcc e h1 i hsq
      · intro e he
        rcases mem_alistInsert he with h1 | h1
        · rw [h1]
          show (getPlayerById s pid).isSome
          rw [hst]
          rfl
        · exact hWF.dir e h1

theorem WF_handleJoin {s : GameState} (hWF : WF s) (pid : String) :
    WF (handleJoin s pid).1 := by
  by_cases hpid : pid = ""
  · rw [handleJoin_eq_missing hpid]; exact hWF
  · rcases h1 : ensureOnline s pid with ⟨s1, po⟩
    have hs1 : s1 = (ensureOnline s pid).1 := by rw [h1]
    cases po with
    | none =>
      rw [handleJoin_eq_unknown hpid h1]
      rw [hs1]
      exact WF_ensureOnline hWF hpid
    | some player =>
      rw [handleJoin_eq_some hpid h1]
      rw [hs1]
      exact WF_ensureOnline hWF hpid

theorem mem_alistErase_ne {α β : Type} [DecidableEq α]
    {l : List (α × β)} (hnd : (l.map Prod.fst).Nodup) {k : α} {e : α × β}
    (h : e ∈ alistErase l k) : e.1 ≠ k := by
  intro hcontra
  have h1 : alistLookup (alistErase l k) e.1 = some e.2 := by
    apply alistLookup_of_mem_nodup (alistErase_nodup hnd k)
    simpa using h
  rw [hcontra, alistLookup_erase_self hnd k] at h1
  exact absurd h1 (by simp)

theorem WF_handleRelease {s : GameState} (hWF : WF s) (pid : String) :
    WF (handleRelease s pid).1 := by
  by_cases hpid : pid = ""
  · rw [handleRelease_eq_missing hpid]; exact hWF
  · cases h1 : alistLookup s.playersOnline pid with
    | none => rw [handleRelease_eq_offline hpid h1]; exact hWF
    | some player =>
      cases hh : player.squareIndex with
      | none => rw [handleRelease_eq_noop hpid h1 hh]; exact hWF
      | some idx =>
        rw [handleRelease_eq_clear hpid h1 hh]
        have hplid : player.id = pid := hWF.lookup_id h1
        have hocc : alistLookup s.occupied idx = some pid :=
          hWF.onlineOcc (pid, player) (alistLookup_mem h1) idx hh
        constructor
        · exact alistErase_nodup hWF.occNodup idx
        · exact alistInsert_nodup hWF.onlineNodup pid _
        · intro e he
          rcases mem_alistInsert he with h2 | h2
          · rw [h2]; exact hplid
          · exact hWF.idKey e h2
        · intro e he
          rcases mem_alistInsert he with h2 | h2
          · rw [h2]; exact hpid
          · exact hWF.keyNe e h2
        · intro e he
          have hmem : e ∈ s.occupied := mem_alistErase he
          have hne_idx : e.1 ≠ idx := mem_alistErase_ne hWF.occNodup he
          obtain ⟨p, hp2, hsq⟩ := hWF.occOnline e hmem
          have hne : e.2 ≠ pid := by
            intro hcontra
            rw [hcontra, h1] at hp2
            have hpp : p = player := by injection hp2 with h3; exact h3.symm
            rw [hpp, hh] at hsq
            have h5 : idx = e.1 := by injection hsq
            exact hne_idx h5.symm
          refine ⟨p, ?_, hsq⟩
          rw [alistLookup_insert_ne _ _ _ _ hne]
          exact hp2
        · intro e he i hsq
          rcases mem_alistInsert_iff hWF.onlineNodup pid _ e |>.mp he with h2 | ⟨h2, h3⟩
          · rw [h2] at hsq
            simp at hsq
          · have hold := hWF.onlineOcc e h2 i hsq
            have hne : i ≠ idx := by
              intro hcontra
              rw [hcontra, hocc] at hold
              have : pid = e.1 := by injection hold with h4
              exact h3 this.symm
            rw [alistLookup_erase_ne _ _ _ hne]
            exact hold
        · intro e he
          rcases mem_alistInsert he with h2 | h2
          · rw [h2]
            show (getPlayerById s pid).isSome
            exact hWF.dir (pid, player) (alistLookup_mem h1)
          · exact hWF.dir e h2

theorem WF_holdAssign {s1 : GameState} (hWF : WF s1) {pid : String} {x : ℚ}
    {player : OnlinePlayer}
    (hp : alistLookup s1.playersOnline pid = some player)
    (hh : player.squareIndex = none)
    (ho : alistLookup s1.occupied x = none) :
    WF (holdAssign s1 pid x player) := by
  have hplid : player.id = pid := hWF.lookup_id hp
  have hpmem : (pid, player) ∈ s1.playersOnline := alistLookup_mem hp
  have hpid : pid ≠ "" := hWF.keyNe (pid, player) hpmem
  have hxkeys : x ∉ s1.occupied.map Prod.fst := (alistLookup_eq_none_iff _ x).mp ho
  constructor
  · show ((alistInsert s1.occupied x player.id).map Prod.fst).Nodup
    rw [alistInsert_eq_append _ ho]
    simp [List.nodup_append, hWF.occNodup, hxkeys]
  · exact alistInsert_nodup hWF.onlineNodup pid _
  · intro e he
    rcases mem_alistInsert he with h2 | h2
    · rw [h2]; exact hplid
    · exact hWF.idKey e h2
  · intro e he
    rcases mem_alistInsert he with h2 | h2
    · rw [h2]; exact hpid
    · exact hWF.keyNe e h2
  · intro e he
    rcases mem_alistInsert he with h2 | h2
    · rw [h2]
      refine ⟨{ player with squareIndex := some x }, ?_, rfl⟩
      show alistLookup (alistInsert s1.playersOnline pid _) player.id = _
      rw [hplid]
      exact alistLookup_insert_self ..
    · obtain ⟨p, hp2, hsq⟩ := hWF.occOnline e h2
      have hne : e.2 ≠ pid := by
        intro hcontra
        rw [hcontra, hp] at hp2
        have hpp : p = player := by injection hp2 with h3; exact h3.symm
        rw [hpp, hh] at hsq
        exact absurd hsq (by simp)
      refine ⟨p, ?_, hsq⟩
      show alistLookup (alistInsert s1.playersOnline pid _) e.2 = some p
      rw [alistLookup_insert_ne _ _ _ _ hne]
      exact hp2
  · intro e he i hsq
    rcases mem_alistInsert_iff hWF.onlineNodup pid _ e |>.mp he with h2 | ⟨h2, h3⟩
    · rw [h2] at hsq ⊢
      simp only at hsq
      have hix : i = x := by injection hsq with h4; exact h4.symm
      subst hix
      show alistLookup (alistInsert s1.occupied i player.id) i = _
      rw [alistLookup_insert_self]
      rw [hplid]
    · have hold := hWF.onlineOcc e h2 i hsq
      have hne : i ≠ x := by
        intro hcontra
        rw [hcontra, ho] at hold
        exact absurd hold (by simp)
      show alistLookup (alistInsert s1.occupied x player.id) i = _
      rw [alistLookup_insert_ne _ _ _ _ hne]
      exact hold
  · intro e he
    rcases mem_alistInsert he with h2 | h2
    · rw [h2]
      show (getPlayerById s1 pid).isSome
      exact hWF.dir (pid, player) hpmem
    · exact hWF.dir e h2

/-- The net effect of completeLevel on one online record: the counter
grows by one exactly for holders, and the held square is cleared. -/
def settleOnline (p : OnlinePlayer) : OnlinePlayer :=
  { p with
    levelsCompleted := p.levelsCompleted + (if p.squareIndex.isSome then 1 else 0)
    squareIndex := none }

theorem alistLookup_map_value {α β γ : Type} [DecidableEq α]
    (l : List (α × β)) (g : β → γ) (k : α) :
    alistLookup (l.map (fun e => (e.1, g e.2))) k = (alistLookup l k).map g := by
  induction l with
  | nil => simp [alistLookup]
  | cons e rest ih =>
    obtain ⟨k0, v0⟩ := e
    by_cases h : k0 = k
    · simp [alistLookup, h]
    · simp [alistLookup, h, ih]

theorem completeLevel_online (s : GameState) :
    (completeLevel s).playersOnline =
      s.playersOnline.map (fun e => (e.1, settleOnline e.2)) := by
  have h1 : (completeLevel s).playersOnline =
      (creditHolders s.players s.playersOnline).2.map
        (fun (e : String × OnlinePlayer) => (e.1, { e.2 with squareIndex := none })) := rfl
  rw [h1, creditHolders_snd, List.map_map]
  refine List.map_congr_left ?_
  intro e _
  by_cases hc : e.2.squareIndex.isSome <;>
    simp [settleOnline, bumpOnline, hc, Function.comp]

theorem completeLevel_fields (s : GameState) :
    (completeLevel s).currentLevel = s.currentLevel + 1 ∧
    (completeLevel s).squaresCount = s.squaresCount * 2 ∧
    (completeLevel s).occupied = [] ∧
    (completeLevel s).players = (creditHolders s.players s.playersOnline).1 :=
  ⟨rfl, rfl, rfl, rfl⟩

theorem completeLevel_online_keys (s : GameState) :
    (completeLevel s).playersOnline.map Prod.fst =
      s.playersOnline.map Prod.fst := by
  rw [completeLevel_online, List.map_map]
  rfl

theorem completeLevel_findPlayer {s : GameState} (hWF : WF s) (k : String) :
    findPlayer (completeLevel s).players k =
      if isHolder s.playersOnline k then
        (findPlayer s.players k).map bumpStored
      else findPlayer s.players k := by
  rw [(completeLevel_fields s).2.2.2]
  exact creditHolders_fst s.players s.playersOnline hWF.onlineNodup hWF.idKey k

theorem WF_completeLevel {s : GameState} (hWF : WF s) : WF (completeLevel s) := by
  have honl := completeLevel_online s
  constructor
  · rw [(completeLevel_fields s).2.2.1]
    simp
  · rw [completeLevel_online_keys]
    exact hWF.onlineNodup
  · intro e he
    rw [honl] at he
    obtain ⟨a, ha, hae⟩ := List.mem_map.mp he
    rw [← hae]
    show (settleOnline a.2).id = a.1
    have : (settleOnline a.2).id = a.2.id := rfl
    rw [this]
    exact hWF.idKey a ha
  · intro e he
    rw [honl] at he
    obtain ⟨a, ha, hae⟩ := List.mem_map.mp he
    rw [← hae]
    exact hWF.keyNe a ha
  · intro e he
    rw [(completeLevel_fields s).2.2.1] at he
    simp at he
  · intro e he i hsq
    rw [honl] at he
    obtain ⟨a, ha, hae⟩ := List.mem_map.mp he
    rw [← hae] at hsq
    have : (settleOnline a.2).squareIndex = none := rfl
    rw [this] at hsq
    exact absurd hsq (by simp)
  · intro e he
    rw [honl] at he
    obtain ⟨a, ha, hae⟩ := List.mem_map.mp he
    rw [← hae]
    show (findPlayer (completeLevel s).players a.1).isSome
    rw [completeLevel_findPlayer hWF]
    have hdir := hWF.dir a ha
    cases hf : findPlayer s.players a.1 with
    | none =>
      rw [show getPlayerById s a.1 = findPlayer s.players a.1 from rfl, hf] at hdir
      simp at hdir
    | some st =>
      by_cases hc : isHolder s.playersOnline a.1 <;> simp [hc, hf]

theorem WF_handleHold {s : GameState} (hWF : WF s) (pid : String) (x : ℚ) :
    WF (handleHold s pid x).1 := by
  by_cases hpid : pid = ""
  · rw [handleHold_eq_missing hpid]; exact hWF
  · rcases h1 : ensureOnline s pid with ⟨s1, po⟩
    have hs1WF : WF s1 := by
      have h2 : s1 = (ensureOnline s pid).1 := by rw [h1]
      rw [h2]
      exact WF_ensureOnline hWF hpid
    cases po with
    | none => rw [handleHold_eq_unknown hpid h1]; exact hs1WF
    | some player =>
      by_cases hb : x < 0 ∨ (s1.squaresCount : ℚ) ≤ x
      · rw [handleHold_eq_invalid hpid h1 hb]; exact hs1WF
      · by_cases hc : s1.playersOnline.length = s1.squaresCount
        · cases hh : player.squareIndex with
          | some i =>
            rw [handleHold_eq_already hpid h1 hb hc (by simp [hh])]
            exact hs1WF
          | none =>
            cases ht : jsTruthy (alistLookup s1.occupied x) with
            | true => rw [handleHold_eq_taken hpid h1 hb hc hh ht]; exact hs1WF
            | false =>
              rw [handleHold_eq_pass hpid h1 hb hc hh ht]
              have hp := ensureOnline_lookup h1
              have ho : alistLookup s1.occupied x = none := hs1WF.jsTruthy_false ht
              have h2WF : WF (holdAssign s1 pid x player) :=
                WF_holdAssign hs1WF hp hh ho
              by_cases hcl : checkLevelCompletion (holdAssign s1 pid x player) = true
              · simp only [if_pos hcl]
                exact WF_completeLevel h2WF
              · simp only [Bool.not_eq_true] at hcl
                simp only [hcl, Bool.false_eq_true, if_false]
                exact h2WF
        · rw [handleHold_eq_closed hpid h1 hb hc]; exact hs1WF

/-- The states the server can be in: the start state for an arbitrary
directory file, closed under the three mutating endpoints. -/
inductive Reachable (d : List Player) : GameState → Prop where
  | start : Reachable d (initialState d)
  | join (s : GameState) (pid : String) :
      Reachable d s → Reachable d (handleJoin s pid).1
  | hold (s : GameState) (pid : String) (x : ℚ) :
      Reachable d s → Reachable d (handleHold s pid x).1
  | release (s : GameState) (pid : String) :
      Reachable d s → Reachable d (handleRelease s pid).1

theorem WF_reachable {d : List Player} {s : GameState}
    (h : Reachable d s) : WF s := by
  induction h with
  | start => exact WF_initialState d
  | join s pid _ ih => exact WF_handleJoin ih pid
  | hold s pid x _ ih => exact WF_handleHold ih pid x
  | release s pid _ ih => exact WF_handleRelease ih pid

/-! ### Inversion of a successful hold -/

theorem handleHold_success_inv {s s' : GameState} {pid : String} {x : ℚ}
    {b : BoardState} {done : Bool}
    (h : handleHold s pid x = (s', .success b done)) :
    pid ≠ "" ∧ ∃ s1 player,
      ensureOnline s pid = (s1, some player) ∧
      ¬ (x < 0 ∨ (s1.squaresCount : ℚ) ≤ x) ∧
      s1.playersOnline.length = s1.squaresCount ∧
      player.squareIndex = none ∧
      jsTruthy (alistLookup s1.occupied x) = false ∧
      ((checkLevelCompletion (holdAssign s1 pid x player) = true ∧ done = true ∧
        s' = completeLevel (holdAssign s1 pid x player) ∧ b = getBoardState s') ∨
       (checkLevelCompletion (holdAssign s1 pid x player) = false ∧ done = false ∧
        s' = holdAssign s1 pid x player ∧ b = getBoardState s')) := by
  by_cases hpid : pid = ""
  · rw [handleHold_eq_missing hpid] at h
    injection h with hs hr2
    exact absurd hr2 (by simp)
  · refine ⟨hpid, ?_⟩
    rcases h1 : ensureOnline s pid with ⟨s1, po⟩
    cases po with
    | none =>
      rw [handleHold_eq_unknown hpid h1] at h
      injection h with hs hr2
      exact absurd hr2 (by simp)
    | some player =>
      refine ⟨s1, player, rfl, ?_⟩
      by_cases hb : x < 0 ∨ (s1.squaresCount : ℚ) ≤ x
      · rw [handleHold_eq_invalid hpid h1 hb] at h
        injection h with hs hr2
        exact absurd hr2 (by simp)
      · refine ⟨hb, ?_⟩
        by_cases hc : s1.playersOnline.length = s1.squaresCount
        · refine ⟨hc, ?_⟩
          cases hh : player.squareIndex with
          | some i =>
            rw [handleHold_eq_already hpid h1 hb hc (by simp [hh])] at h
            injection h with hs hr2
            exact absurd hr2 (by simp)
          | none =>
            refine ⟨rfl, ?_⟩
            cases ht : jsTruthy (alistLookup s1.occupied x) with
            | true =>
              rw [handleHold_eq_taken hpid h1 hb hc hh ht] at h
              injection h with hs hr2
              exact absurd hr2 (by simp)
            | false =>
              refine ⟨rfl, ?_⟩
              rw [handleHold_eq_pass hpid h1 hb hc hh ht] at h
              by_cases hcl : checkLevelCompletion (holdAssign s1 pid x player) = true
              · rw [if_pos hcl] at h
                injection h with hs hr2
                left
                injection hr2 with hb2 hd2
                exact ⟨hcl, hd2.symm, hs.symm, by rw [← hb2, hs]⟩
              · simp only [Bool.not_eq_true] at hcl
                rw [hcl, if_neg (by simp)] at h
                injection h with hs hr2
                right
                injection hr2 with hb2 hd2
                exact ⟨hcl, hd2.symm, hs.symm, by rw [← hb2, hs]⟩
        · rw [handleHold_eq_closed hpid h1 hb hc] at h
          injection h with hs hr2
          exact absurd hr2 (by simp)

/-- Every hold outcome other than success leaves the level, the square
count, the occupancy and the directory untouched. -/
theorem handleHold_not_success {s s' : GameState} {pid : String} {x : ℚ}
    {r : HoldResponse} (h : handleHold s pid x = (s', r))
    (hr : ∀ b done, r ≠ .success b done) :
    s'.currentLevel = s.currentLevel ∧ s'.squaresCount = s.squaresCount ∧
    s'.occupied = s.occupied ∧ s'.players = s.players := by
  by_cases hpid : pid = ""
  · rw [handleHold_eq_missing hpid] at h
    injection h with hs hr2
    rw [← hs]
    exact ⟨rfl, rfl, rfl, rfl⟩
  · rcases h1 : ensureOnline s pid with ⟨s1, po⟩
    have hf := ensureOnline_fields s pid
    rw [h1] at hf
    have hfs : s1.players = s.players ∧ s1.currentLevel = s.currentLevel ∧
        s1.squaresCount = s.squaresCount ∧ s1.occupied = s.occupied := hf
    cases po with
    | none =>
      rw [handleHold_eq_unknown hpid h1] at h
      injection h with hs hr2
      rw [← hs]
      exact ⟨hfs.2.1, hfs.2.2.1, hfs.2.2.2, hfs.1⟩
    | some player =>
      by_cases hb : x < 0 ∨ (s1.squaresCount : ℚ) ≤ x
      · rw [handleHold_eq_invalid hpid h1 hb] at h
        injection h with hs hr2
        rw [← hs]
        exact ⟨hfs.2.1, hfs.2.2.1, hfs.2.2.2, hfs.1⟩
      · by_cases hc : s1.playersOnline.length = s1.squaresCount
        · cases hh : player.squareIndex with
          | some i =>
            rw [handleHold_eq_already hpid h1 hb hc (by simp [hh])] at h
            injection h with hs hr2
            rw [← hs]
            exact ⟨hfs.2.1, hfs.2.2.1, hfs.2.2.2, hfs.1⟩
          | none =>
            cases ht : jsTruthy (alistLookup s1.occupied x) with
            | true =>
              rw [handleHold_eq_taken hpid h1 hb hc hh ht] at h
              injection h with hs hr2
              rw [← hs]
              exact ⟨hfs.2.1, hfs.2.2.1, hfs.2.2.2, hfs.1⟩
            | false =>
              rw [handleHold_eq_pass hpid h1 hb hc hh ht] at h
              by_cases hcl : checkLevelCompletion (holdAssign s1 pid x player) = true
              · rw [if_pos hcl] at h
                injection h with hs hr2
                exact absurd hr2.symm (hr _ _)
              · simp only [Bool.not_eq_true] at hcl
                rw [hcl, if_neg (by simp)] at h
                injection h with hs hr2
                exact absurd hr2.symm (hr _ _)
        · rw [handleHold_eq_closed hpid h1 hb hc] at h
          injection h with hs hr2
          rw [← hs]
          exact ⟨hfs.2.1, hfs.2.2.1, hfs.2.2.2, hfs.1⟩

/-- release never touches the level, the square count or the directory. -/
theorem handleRelease_fields (s : GameState) (pid : String) :
    (handleRelease s pid).1.currentLevel = s.currentLevel ∧
    (handleRelease s pid).1.squaresCount = s.squaresCount ∧
    (handleRelease s pid).1.players = s.players := by
  by_cases hpid : pid = ""
  · rw [handleRelease_eq_missing hpid]
    exact ⟨rfl, rfl, rfl⟩
  · cases h1 : alistLookup s.playersOnline pid with
    | none =>
      rw [handleRelease_eq_offline hpid h1]
      exact ⟨rfl, rfl, rfl⟩
    | some player =>
      cases hh : player.squareIndex with
      | none =>
        rw [handleRelease_eq_noop hpid h1 hh]
        exact ⟨rfl, rfl, rfl⟩
      | some idx =>
        rw [handleRelease_eq_clear hpid h1 hh]
        exact ⟨rfl, rfl, rfl⟩

/-- join never touches the level, the square count, the occupancy or the
directory. -/
theorem handleJoin_fields (s : GameState) (pid : String) :
    (handleJoin s pid).1.currentLevel = s.currentLevel ∧
    (handleJoin s pid).1.squaresCount = s.squaresCount ∧
    (handleJoin s pid).1.occupied = s.occupied ∧
    (handleJoin s pid).1.players = s.players := by
  by_cases hpid : pid = ""
  · rw [handleJoin_eq_missing hpid]
    exact ⟨rfl, rfl, rfl, rfl⟩
  · rcases h1 : ensureOnline s pid with ⟨s1, po⟩
    have hf := ensureOnline_fields s pid
    rw [h1] at hf
    cases po with
    | none =>
      rw [handleJoin_eq_unknown hpid h1]
      exact ⟨hf.2.1, hf.2.2.1, hf.2.2.2, hf.1⟩
    | some player =>
      rw [handleJoin_eq_some hpid h1]
      exact ⟨hf.2.1, hf.2.2.1, hf.2.2.2, hf.1⟩

theorem isHolder_insert_self (l : List (String × OnlinePlayer)) (pid : String)
    (v : OnlinePlayer) :
    isHolder (alistInsert l pid v) pid = v.squareIndex.isSome := by
  simp [isHolder, alistLookup_insert_self]

theorem isHolder_insert_ne (l : List (String × OnlinePlayer)) (pid k : String)
    (v : OnlinePlayer) (h : k ≠ pid) :
    isHolder (alistInsert l pid v) k = isHolder l k := by
  simp [isHolder, alistLookup_insert_ne _ _ _ _ h]

/-! ### Concrete sample run: four registered players, the spec's scenario -/

/-- A registered player with zero completed levels. -/
def demoPlayer (n : String) : Player :=
  { id := n, nickname := n, country := "US", role := "player", levelsCompleted := 0 }

def demoDir : List Player := [demoPlayer "a", demoPlayer "b", demoPlayer "c", demoPlayer "d"]

def demoStart : GameState := initialState demoDir

/-- All four players joined. -/
def demoJoined : GameState :=
  (handleJoin (handleJoin (handleJoin (handleJoin demoStart "a").1 "b").1 "c").1 "d").1

/-- Squares 0, 1, 2 held by a, b, c. -/
def demoThree : GameState :=
  (handleHold (handleHold (handleHold demoJoined "a" 0).1 "b" 1).1 "c" 2).1

/-- Only three of the four players joined (the admission scenario). -/
def demoJoined3 : GameState :=
  (handleJoin (handleJoin (handleJoin demoStart "a").1 "b").1 "c").1

theorem demoJoined3_reachable : Reachable demoDir demoJoined3 :=
  .join _ _ (.join _ _ (.join _ _ .start))

theorem demoJoined3_WF : WF demoJoined3 := WF_reachable demoJoined3_reachable

theorem demoThree_reachable : Reachable demoDir demoThree :=
  .hold _ _ _ (.hold _ _ _ (.hold _ _ _
    (.join _ _ (.join _ _ (.join _ _ (.join _ _ .start))))))

theorem demoThree_WF : WF demoThree := WF_reachable demoThree_reachable

theorem demoStart_WF : WF demoStart := WF_reachable (.start)

/-- The non-integer square index one half, in normalised form so that
concrete runs reduce in the kernel. -/
def half : ℚ := ⟨1, 2, by decide, by decide⟩

/-! ### Claim C3 -/

/-- C3, counterexample.  The claim says a hold by a player outside the
Presence Set fails with NotOnline and leaves the Presence Set unchanged.
In the code, player "a" is registered but not online; hold("a", 0) is
not rejected for being offline: ensureOnline silently admits the player,
the call then fails with the AdmissionClosed error (notEnoughPlayers),
and the Presence Set has grown. -/
theorem c3_counterexample :
    alistLookup demoStart.playersOnline "a" = none ∧
    (handleHold demoStart "a" 0).2 = HoldResponse.notEnoughPlayers ∧
    (handleHold demoStart "a" 0).1.playersOnline ≠ demoStart.playersOnline := by
  decide

/-- C3, amended: hold fails with UnknownPlayer - not NotOnline - exactly
when the playerId is absent from the durable Player Directory, and that
is the first check after parameter validation; in that case the Presence
Set, the Board and the Player Directory are all unchanged (the state is
returned as is).  A directory player missing from the Presence Set is
not rejected but inserted (claim C9). -/
theorem c3_hold_unknown (s : GameState) (pid : String) (x : ℚ)
    (hpid : pid ≠ "") (h : getPlayerById s pid = none) :
    handleHold s pid x = (s, HoldResponse.unknownPlayer) :=
  handleHold_eq_unknown hpid (ensureOnline_of_unknown h)

theorem c3_witness :
    handleHold demoStart "nobody" 0 = (demoStart, HoldResponse.unknownPlayer) :=
  c3_hold_unknown demoStart "nobody" 0 (by decide) (by decide)

/-! ### Claim C9 -/

/-- C9: a directory player absent from the Presence Set is inserted by a
hold call (with no held square) before any other precondition, and the
insertion persists when the call fails with InvalidSquare,
AdmissionClosed or SquareTaken; the admission check then compares the
enlarged headcount (the old count plus one) with squareCount. -/
theorem c9_failed_hold_inserts (s : GameState) (pid : String) (x : ℚ) (st : Player)
    (hpid : pid ≠ "") (hst : getPlayerById s pid = some st)
    (hoff : alistLookup s.playersOnline pid = none) :
    ((handleHold s pid x).2 = HoldResponse.invalidSquareIndex ∨
     (handleHold s pid x).2 = HoldResponse.notEnoughPlayers ∨
     (handleHold s pid x).2 = HoldResponse.squareAlreadyOccupied) →
    (handleHold s pid x).1.playersOnline = s.playersOnline ++ [(pid, freshOnline st)] ∧
    (freshOnline st).squareIndex = none ∧
    (handleHold s pid x).1.playersOnline.length = s.playersOnline.length + 1 ∧
    ((handleHold s pid x).2 = HoldResponse.notEnoughPlayers ↔
      ¬ (x < 0 ∨ (s.squaresCount : ℚ) ≤ x) ∧
      s.playersOnline.length + 1 ≠ s.squaresCount) := by
  intro hr
  have hE := ensureOnline_of_fresh hst hoff
  have happ : alistInsert s.playersOnline pid (freshOnline st) =
      s.playersOnline ++ [(pid, freshOnline st)] :=
    alistInsert_eq_append _ hoff
  set sIns : GameState :=
    { s with playersOnline := alistInsert s.playersOnline pid (freshOnline st) }
    with hsIns
  have honl : sIns.playersOnline = s.playersOnline ++ [(pid, freshOnline st)] := by
    rw [hsIns]
    exact happ
  have hlen : sIns.playersOnline.length = s.playersOnline.length + 1 := by
    rw [honl]
    simp
  by_cases hb : x < 0 ∨ (s.squaresCount : ℚ) ≤ x
  · rw [handleHold_eq_invalid hpid hE hb]
    refine ⟨honl, rfl, hlen, ?_⟩
    constructor
    · intro hcontra
      exact absurd hcontra (by simp)
    · intro hcontra
      exact absurd hb hcontra.1
  · by_cases hcnt : s.playersOnline.length + 1 = s.squaresCount
    · have hc : sIns.playersOnline.length = sIns.squaresCount := by
        rw [hlen]
        exact hcnt
      cases ht : jsTruthy (alistLookup sIns.occupied x) with
      | false =>
        rw [handleHold_eq_pass hpid hE hb hc rfl ht] at hr
        by_cases hcl : checkLevelCompletion (holdAssign sIns pid x (freshOnline st)) = true
        · rw [if_pos hcl] at hr
          rcases hr with hr | hr | hr <;> exact absurd hr (by simp)
        · simp only [Bool.not_eq_true] at hcl
          rw [hcl, if_neg (by simp)] at hr
          rcases hr with hr | hr | hr <;> exact absurd hr (by simp)
      | true =>
        rw [handleHold_eq_taken hpid hE hb hc rfl ht]
        refine ⟨honl, rfl, hlen, ?_⟩
        constructor
        · intro hcontra
          exact absurd hcontra (by simp)
        · intro hcontra
          exact absurd hcnt hcontra.2
    · have hc : sIns.playersOnline.length ≠ sIns.squaresCount := by
        rw [hlen]
        exact hcnt
      rw [handleHold_eq_closed hpid hE hb hc]
      exact ⟨honl, rfl, hlen, by simp [hb, hcnt]⟩

theorem c9_witness :
    alistLookup demoStart.playersOnline "a" = none ∧
    ((handleHold demoStart "a" 0).1.playersOnline =
        demoStart.playersOnline ++ [("a", freshOnline (demoPlayer "a"))] ∧
      (freshOnline (demoPlayer "a")).squareIndex = none ∧
      (handleHold demoStart "a" 0).1.playersOnline.length =
        demoStart.playersOnline.length + 1 ∧
      ((handleHold demoStart "a" 0).2 = HoldResponse.notEnoughPlayers ↔
        ¬ ((0 : ℚ) < 0 ∨ (demoStart.squaresCount : ℚ) ≤ 0) ∧
        demoStart.playersOnline.length + 1 ≠ demoStart.squaresCount)) :=
  ⟨by decide,
    c9_failed_hold_inserts demoStart "a" 0 (demoPlayer "a") (by decide) (by decide)
      (by decide) (by decide)⟩

/-! ### Claim C6 -/

/-- C6: release by an offline player fails with the NotOnline error; a
release by an online player holding no square is a no-op returning the
current snapshot with the state untouched; a release by a holder clears
occupancy at the held index and the player's held square and returns the
updated snapshot; and immediately releasing again after any successful
release is the no-op case. -/
theorem c6_release_semantics (s : GameState) (pid : String) (hpid : pid ≠ "") :
    (alistLookup s.playersOnline pid = none →
      handleRelease s pid = (s, ReleaseResponse.playerNotOnline)) ∧
    (∀ player, alistLookup s.playersOnline pid = some player →
      player.squareIndex = none →
      handleRelease s pid = (s, ReleaseResponse.success (getBoardState s))) ∧
    (∀ player idx, WF s → alistLookup s.playersOnline pid = some player →
      player.squareIndex = some idx →
      alistLookup (handleRelease s pid).1.occupied idx = none ∧
      alistLookup (handleRelease s pid).1.playersOnline pid =
        some { player with squareIndex := none } ∧
      (handleRelease s pid).2 =
        ReleaseResponse.success (getBoardState (handleRelease s pid).1)) ∧
    (∀ s' b, handleRelease s pid = (s', ReleaseResponse.success b) →
      handleRelease s' pid = (s', ReleaseResponse.success (getBoardState s'))) := by
  refine ⟨?_, ?_, ?_, ?_⟩
  · intro h1
    exact handleRelease_eq_offline hpid h1
  · intro player h1 hh
    exact handleRelease_eq_noop hpid h1 hh
  · intro player idx hWF h1 hh
    rw [handleRelease_eq_clear hpid h1 hh]
    refine ⟨?_, ?_, rfl⟩
    · show alistLookup (alistErase s.occupied idx) idx = none
      exact alistLookup_erase_self hWF.occNodup idx
    · show alistLookup (alistInsert s.playersOnline pid _) pid = _
      exact alistLookup_insert_self ..
  · intro s' b h
    cases h1 : alistLookup s.playersOnline pid with
    | none =>
      rw [handleRelease_eq_offline hpid h1] at h
      injection h with h2 h3
      exact absurd h3 (by simp)
    | some player =>
      cases hh : player.squareIndex with
      | none =>
        rw [handleRelease_eq_noop hpid h1 hh] at h
        injection h with h2 h3
        rw [← h2]
        exact handleRelease_eq_noop hpid h1 hh
      | some idx =>
        rw [handleRelease_eq_clear hpid h1 hh] at h
        injection h with h2 h3
        rw [← h2]
        have hlook : alistLookup (alistInsert s.playersOnline pid { player with squareIndex := none }) pid = some { player with squareIndex := none } :=
          alistLookup_insert_self ..
        exact handleRelease_eq_noop hpid hlook rfl

theorem c6_witness :
    alistLookup demoThree.playersOnline "nobody" = none ∧
    handleRelease demoThree "nobody" = (demoThree, ReleaseResponse.playerNotOnline) ∧
    alistLookup demoThree.playersOnline "d" =
      some (freshOnline (demoPlayer "d")) ∧
    handleRelease demoThree "d" =
      (demoThree, ReleaseResponse.success (getBoardState demoThree)) ∧
    alistLookup (handleRelease demoThree "a").1.occupied 0 = none ∧
    (handleRelease demoThree "a").2 =
      ReleaseResponse.success (getBoardState (handleRelease demoThree "a").1) := by
  have hc := c6_release_semantics demoThree "nobody" (by decide)
  have hd := c6_release_semantics demoThree "d" (by decide)
  have ha := c6_release_semantics demoThree "a" (by decide)
  have ha3 := ha.2.2.1 { freshOnline (demoPlayer "a") with squareIndex := some 0 } 0
    demoThree_WF (by decide) rfl
  exact ⟨by decide, hc.1 (by decide), by decide,
    hd.2.1 (freshOnline (demoPlayer "d")) (by decide) rfl, ha3.1, ha3.2.2⟩

/-! ### Claim C7 -/

/-- C7: join fails with UnknownPlayer when the id is not in the
directory; a first join by a directory player appends a presence entry
with no held square and returns the current snapshot; a repeated join by
an online directory player changes nothing and returns the current
snapshot; and a join immediately after any successful join is such a
no-op. -/
theorem c7_join_idempotent (s : GameState) (pid : String) (hpid : pid ≠ "") :
    (getPlayerById s pid = none →
      handleJoin s pid = (s, JoinResponse.unknownPlayer)) ∧
    (∀ st, getPlayerById s pid = some st →
      alistLookup s.playersOnline pid = none →
      (handleJoin s pid).1.playersOnline =
        s.playersOnline ++ [(pid, freshOnline st)] ∧
      (freshOnline st).squareIndex = none ∧
      (handleJoin s pid).2 =
        JoinResponse.success (getBoardState (handleJoin s pid).1)) ∧
    (∀ st p, getPlayerById s pid = some st →
      alistLookup s.playersOnline pid = some p →
      handleJoin s pid = (s, JoinResponse.success (getBoardState s))) ∧
    (∀ s' b, handleJoin s pid = (s', JoinResponse.success b) →
      handleJoin s' pid = (s', JoinResponse.success (getBoardState s'))) := by
  refine ⟨?_, ?_, ?_, ?_⟩
  · intro h1
    exact handleJoin_eq_unknown hpid (ensureOnline_of_unknown h1)
  · intro st hst hoff
    rw [handleJoin_eq_some hpid (ensureOnline_of_fresh hst hoff)]
    refine ⟨?_, rfl, rfl⟩
    show alistInsert s.playersOnline pid (freshOnline st) = _
    exact alistInsert_eq_append _ hoff
  · intro st p hst h1
    exact handleJoin_eq_some hpid (ensureOnline_of_online hst h1)
  · intro s' b h
    cases hst : getPlayerById s pid with
    | none =>
      rw [handleJoin_eq_unknown hpid (ensureOnline_of_unknown hst)] at h
      injection h with h2 h3
      exact absurd h3 (by simp)
    | some st =>
      cases h1 : alistLookup s.playersOnline pid with
      | none =>
        rw [handleJoin_eq_some hpid (ensureOnline_of_fresh hst h1)] at h
        injection h with h2 h3
        rw [← h2]
        have hlook : alistLookup (alistInsert s.playersOnline pid (freshOnline st)) pid = some (freshOnline st) :=
          alistLookup_insert_self ..
        have hst2 : getPlayerById { s with playersOnline := alistInsert s.playersOnline pid (freshOnline st) } pid = some st :=
          hst
        exact handleJoin_eq_some hpid (ensureOnline_of_online hst2 hlook)
      | some p =>
        rw [handleJoin_eq_some hpid (ensureOnline_of_online hst h1)] at h
        injection h with h2 h3
        rw [← h2]
        exact handleJoin_eq_some hpid (ensureOnline_of_online hst h1)

theorem c7_witness :
    (handleJoin demoStart "nobody" = (demoStart, JoinResponse.unknownPlayer)) ∧
    ((handleJoin demoStart "a").1.playersOnline =
      demoStart.playersOnline ++ [("a", freshOnline (demoPlayer "a"))]) ∧
    (handleJoin demoJoined "a" =
      (demoJoined, JoinResponse.success (getBoardState demoJoined))) := by
  have h1 := c7_join_idempotent demoStart "nobody" (by decide)
  have h2 := c7_join_idempotent demoStart "a" (by decide)
  have h3 := c7_join_idempotent demoJoined "a" (by decide)
  exact ⟨h1.1 (by decide),
    (h2.2.1 (demoPlayer "a") (by decide) (by decide)).1,
    h3.2.2.1 (demoPlayer "a") (freshOnline (demoPlayer "a")) (by decide) (by decide)⟩

/-! ### Claim C8 -/

/-- A state whose single online player has completed no level. -/
def c8stateA : GameState :=
  { players := demoDir
    currentLevel := 1
    squaresCount := 4
    occupied := []
    playersOnline := [("a",
      { id := "a", nickname := "a", country := "US", role := "player",
        levelsCompleted := 0, squareIndex := none })] }

/-- The same state except that the online player has completed five
levels. -/
def c8stateB : GameState :=
  { players := demoDir
    currentLevel := 1
    squaresCount := 4
    occupied := []
    playersOnline := [("a",
      { id := "a", nickname := "a", country := "US", role := "player",
        levelsCompleted := 5, squareIndex := none })] }

/-- C8, counterexample.  The claim says each snapshot player entry
carries levelsCompleted.  It does not: two states that differ only in an
online player's levelsCompleted produce identical board snapshots, so
the snapshot cannot contain that counter.  (The UI reads the counter
from the separate leaderboard endpoint instead.) -/
theorem c8_counterexample :
    handleBoard c8stateA = handleBoard c8stateB ∧
    (alistLookup c8stateA.playersOnline "a").map OnlinePlayer.levelsCompleted =
      some 0 ∧
    (alistLookup c8stateB.playersOnline "a").map OnlinePlayer.levelsCompleted =
      some 5 := by
  decide

/-- C8, amended: every snapshot handed to a caller (by board, join,
release and hold) is getBoardState of the state at response time, of
shape level, squaresCount, occupied, players, and each players entry
carries exactly id, nickname (the displayName), country (the region) and
squareIndex (the held square) - levelsCompleted is not part of it. -/
theorem c8_snapshot_shape (s : GameState) :
    handleBoard s = getBoardState s ∧
    (getBoardState s).level = s.currentLevel ∧
    (getBoardState s).squaresCount = s.squaresCount ∧
    (getBoardState s).occupied = s.occupied ∧
    (getBoardState s).players = s.playersOnline.map (fun e =>
      { id := e.2.id, nickname := e.2.nickname, country := e.2.country,
        squareIndex := e.2.squareIndex }) ∧
    (∀ pid s' b, handleJoin s pid = (s', JoinResponse.success b) →
      b = getBoardState s') ∧
    (∀ pid s' b, handleRelease s pid = (s', ReleaseResponse.success b) →
      b = getBoardState s') ∧
    (∀ pid x s' b done, handleHold s pid x = (s', HoldResponse.success b done) →
      b = getBoardState s') := by
  refine ⟨rfl, rfl, rfl, rfl, rfl, ?_, ?_, ?_⟩
  · intro pid s' b h
    by_cases hpid : pid = ""
    · rw [handleJoin_eq_missing hpid] at h
      injection h with h2 h3
      exact absurd h3 (by simp)
    · rcases h1 : ensureOnline s pid with ⟨s1, po⟩
      cases po with
      | none =>
        rw [handleJoin_eq_unknown hpid h1] at h
        injection h with h2 h3
        exact absurd h3 (by simp)
      | some player =>
        rw [handleJoin_eq_some hpid h1] at h
        injection h with h2 h3
        injection h3 with h4
        rw [← h4, h2]
  · intro pid s' b h
    by_cases hpid : pid = ""
    · rw [handleRelease_eq_missing hpid] at h
      injection h with h2 h3
      exact absurd h3 (by simp)
    · cases h1 : alistLookup s.playersOnline pid with
      | none =>
        rw [handleRelease_eq_offline hpid h1] at h
        injection h with h2 h3
        exact absurd h3 (by simp)
      | some player =>
        cases hh : player.squareIndex with
        | none =>
          rw [handleRelease_eq_noop hpid h1 hh] at h
          injection h with h2 h3
          injection h3 with h4
          rw [← h4, h2]
        | some idx =>
          rw [handleRelease_eq_clear hpid h1 hh] at h
          injection h with h2 h3
          injection h3 with h4
          rw [← h4, h2]
  · intro pid x s' b done h
    obtain ⟨-, s1, player, -, -, -, -, -, hcase⟩ := handleHold_success_inv h
    rcases hcase with ⟨-, -, -, hb⟩ | ⟨-, -, -, hb⟩ <;> exact hb

/-! ### Claim C4 -/

/-- C4, counterexample.  The claim says every failing precondition
leaves the state unchanged.  A hold with an out-of-range index by a
registered-but-offline player fails with InvalidSquare yet grows the
Presence Set (the ensureOnline insertion of claim C9). -/
theorem c4_counterexample :
    (handleHold demoStart "a" 7).2 = HoldResponse.invalidSquareIndex ∧
    (handleHold demoStart "a" 7).1.playersOnline ≠ demoStart.playersOnline := by
  decide

/-- C4, amended: after the online-ensuring step (state s1, which differs
from s at most by the insertion of the caller and is identical to s when
the caller was already online), hold checks its preconditions in order -
index out of the numeric range [0, squareCount) gives InvalidSquare,
then a headcount different from squareCount gives AdmissionClosed
(notEnoughPlayers), then an already-held square gives AlreadyHolding,
then an occupied target gives SquareTaken - each failure returning s1
unchanged (so Board and Directory are never touched by a failure), and
only when all pass are occupancy[squareIndex] = playerId and the
caller's squareIndex set, in one step. -/
theorem c4_precondition_order (s s1 : GameState) (pid : String) (x : ℚ)
    (player : OnlinePlayer) (hWF : WF s) (hpid : pid ≠ "")
    (h1 : ensureOnline s pid = (s1, some player)) :
    (s1.players = s.players ∧ s1.currentLevel = s.currentLevel ∧
      s1.squaresCount = s.squaresCount ∧ s1.occupied = s.occupied) ∧
    (alistLookup s.playersOnline pid = some player → s1 = s) ∧
    ((x < 0 ∨ (s.squaresCount : ℚ) ≤ x) →
      handleHold s pid x = (s1, HoldResponse.invalidSquareIndex)) ∧
    (¬ (x < 0 ∨ (s.squaresCount : ℚ) ≤ x) →
      s1.playersOnline.length ≠ s.squaresCount →
      handleHold s pid x = (s1, HoldResponse.notEnoughPlayers)) ∧
    (¬ (x < 0 ∨ (s.squaresCount : ℚ) ≤ x) →
      s1.playersOnline.length = s.squaresCount →
      player.squareIndex ≠ none →
      handleHold s pid x = (s1, HoldResponse.alreadyHoldsSquare)) ∧
    (¬ (x < 0 ∨ (s.squaresCount : ℚ) ≤ x) →
      s1.playersOnline.length = s.squaresCount →
      player.squareIndex = none →
      (alistLookup s.occupied x).isSome = true →
      handleHold s pid x = (s1, HoldResponse.squareAlreadyOccupied)) ∧
    (¬ (x < 0 ∨ (s.squaresCount : ℚ) ≤ x) →
      s1.playersOnline.length = s.squaresCount →
      player.squareIndex = none →
      (alistLookup s.occupied x).isSome = false →
      alistLookup (holdAssign s1 pid x player).occupied x = some pid ∧
      alistLookup (holdAssign s1 pid x player).playersOnline pid =
        some { player with squareIndex := some x } ∧
      handleHold s pid x =
        (if checkLevelCompletion (holdAssign s1 pid x player) then
          (completeLevel (holdAssign s1 pid x player),
            HoldResponse.success
              (getBoardState (completeLevel (holdAssign s1 pid x player))) true)
        else
          (holdAssign s1 pid x player,
            HoldResponse.success (getBoardState (holdAssign s1 pid x player)) false))) := by
  have hflds := ensureOnline_fields s pid
  rw [h1] at hflds
  obtain ⟨hfp, hfl, hfq, hfo⟩ :
      s1.players = s.players ∧ s1.currentLevel = s.currentLevel ∧
      s1.squaresCount = s.squaresCount ∧ s1.occupied = s.occupied := hflds
  have hs1WF : WF s1 := by
    have h2 : s1 = (ensureOnline s pid).1 := by rw [h1]
    rw [h2]
    exact WF_ensureOnline hWF hpid
  have hbq : ∀ y : ℚ, (y < 0 ∨ (s.squaresCount : ℚ) ≤ y) ↔
      (y < 0 ∨ (s1.squaresCount : ℚ) ≤ y) := by
    intro y
    rw [hfq]
  have htruthy : ∀ c : Bool, (alistLookup s.occupied x).isSome = c →
      jsTruthy (alistLookup s1.occupied x) = c := by
    intro c hc
    rw [hfo]
    cases hl : alistLookup s.occupied x with
    | none =>
      rw [hl] at hc
      simp at hc
      rw [hc]
      simp [jsTruthy]
    | some v =>
      rw [hl] at hc
      simp at hc
      have hv : v ≠ "" := by
        have h3 : (x, v) ∈ s1.occupied := by
          rw [hfo]
          exact alistLookup_mem hl
        exact hs1WF.occValueNe (x, v) h3
      rw [hc]
      simp [jsTruthy, hv]
  refine ⟨⟨hfp, hfl, hfq, hfo⟩, ?_, ?_, ?_, ?_, ?_, ?_⟩
  · intro hon
    obtain ⟨st, hst, hcase⟩ := ensureOnline_some h1
    rcases hcase with ⟨hp, hs⟩ | ⟨hp, hpl, hs⟩
    · exact hs
    · rw [hon] at hp
      exact absurd hp (by simp)
  · intro hb
    exact handleHold_eq_invalid hpid h1 ((hbq x).mp hb)
  · intro hb hc
    refine handleHold_eq_closed hpid h1 (fun h2 => hb ((hbq x).mpr h2)) ?_
    rw [hfq]
    exact hc
  · intro hb hc hh
    refine handleHold_eq_already hpid h1 (fun h2 => hb ((hbq x).mpr h2)) ?_ hh
    rw [hfq]
    exact hc
  · intro hb hc hh ht
    refine handleHold_eq_taken hpid h1 (fun h2 => hb ((hbq x).mpr h2)) ?_ hh
      (htruthy true ht)
    rw [hfq]
    exact hc
  · intro hb hc hh ht
    have hplid : player.id = pid := hs1WF.lookup_id (ensureOnline_lookup h1)
    refine ⟨?_, ?_, ?_⟩
    · show alistLookup (alistInsert s1.occupied x player.id) x = some pid
      rw [alistLookup_insert_self, hplid]
    · show alistLookup (alistInsert s1.playersOnline pid _) pid = _
      exact alistLookup_insert_self ..
    · refine handleHold_eq_pass hpid h1 (fun h2 => hb ((hbq x).mpr h2)) ?_ hh
        (htruthy false ht)
      rw [hfq]
      exact hc

theorem c4_witness :
    handleHold demoThree "d" 7 = (demoThree, HoldResponse.invalidSquareIndex) ∧
    handleHold demoJoined3 "a" 0 = (demoJoined3, HoldResponse.notEnoughPlayers) ∧
    demoJoined3.occupied = [] :=
  ⟨(c4_precondition_order demoThree demoThree "d" 7 (freshOnline (demoPlayer "d"))
      demoThree_WF (by decide) (by decide)).2.2.1 (by decide),
   (c4_precondition_order demoJoined3 demoJoined3 "a" 0 (freshOnline (demoPlayer "a"))
      demoJoined3_WF (by decide) (by decide)).2.2.2.1 (by decide) (by decide),
   by decide⟩

/-! ### Claim C1 -/

/-- C1: a successful hold reports a completion exactly when, in the
state right after the square is assigned, the number of occupied squares
and the online headcount both equal squareCount - and a completion
(level change) happens exactly then; every failing hold, every release
and every join leaves level and squareCount untouched (and a failing
hold and any release leave the level, i.e. no release or failure ever
completes a level). -/
theorem c1_completion_trigger :
    (∀ (s s' : GameState) (pid : String) (x : ℚ) (b : BoardState) (done : Bool),
      WF s → handleHold s pid x = (s', HoldResponse.success b done) →
      ∃ s1 player, ensureOnline s pid = (s1, some player) ∧
        (done = true ↔
          (holdAssign s1 pid x player).occupied.length = s.squaresCount ∧
          (holdAssign s1 pid x player).playersOnline.length = s.squaresCount) ∧
        (done = true ↔ s'.currentLevel = s.currentLevel + 1)) ∧
    (∀ (s s' : GameState) (pid : String) (x : ℚ) (r : HoldResponse),
      handleHold s pid x = (s', r) →
      (∀ b done, r ≠ HoldResponse.success b done) →
      s'.currentLevel = s.currentLevel ∧ s'.squaresCount = s.squaresCount ∧
      s'.occupied = s.occupied) ∧
    (∀ (s : GameState) (pid : String),
      (handleRelease s pid).1.currentLevel = s.currentLevel ∧
      (handleRelease s pid).1.squaresCount = s.squaresCount) ∧
    (∀ (s : GameState) (pid : String),
      (handleJoin s pid).1.currentLevel = s.currentLevel ∧
      (handleJoin s pid).1.squaresCount = s.squaresCount) := by
  refine ⟨?_, ?_, ?_, ?_⟩
  · intro s s' pid x b done hWF h
    obtain ⟨hpid, s1, player, h1, hb, hc, hh, ht, hcase⟩ := handleHold_success_inv h
    have hflds := ensureOnline_fields s pid
    rw [h1] at hflds
    obtain ⟨hfp, hfl, hfq, hfo⟩ :
        s1.players = s.players ∧ s1.currentLevel = s.currentLevel ∧
        s1.squaresCount = s.squaresCount ∧ s1.occupied = s.occupied := hflds
    refine ⟨s1, player, h1, ?_⟩
    have hqA : (holdAssign s1 pid x player).squaresCount = s.squaresCount := hfq
    have hlA : (holdAssign s1 pid x player).currentLevel = s.currentLevel := hfl
    have hchk : checkLevelCompletion (holdAssign s1 pid x player) = true ↔
        (holdAssign s1 pid x player).occupied.length = s.squaresCount ∧
        (holdAssign s1 pid x player).playersOnline.length = s.squaresCount := by
      rw [← hqA]
      simp [checkLevelCompletion]
    rcases hcase with ⟨hcl, hdone, hs, hbb⟩ | ⟨hcl, hdone, hs, hbb⟩
    · subst hdone
      constructor
      · simp only [true_iff]
        exact hchk.mp hcl
      · simp only [true_iff]
        rw [hs]
        rw [(completeLevel_fields _).1, hlA]
    · subst hdone
      constructor
      · constructor
        · intro h2
          exact absurd h2 (by simp)
        · intro h2
          have h3 := hchk.mpr h2
          rw [hcl] at h3
          exact absurd h3 (by simp)
      · constructor
        · intro h2
          exact absurd h2 (by simp)
        · intro h2
          rw [hs, hlA] at h2
          exact absurd h2 (by omega)
  · intro s s' pid x r h hr
    obtain ⟨h2, h3, h4, _⟩ := handleHold_not_success h hr
    exact ⟨h2, h3, h4⟩
  · intro s pid
    obtain ⟨h2, h3, _⟩ := handleRelease_fields s pid
    exact ⟨h2, h3⟩
  · intro s pid
    obtain ⟨h2, h3, _, _⟩ := handleJoin_fields s pid
    exact ⟨h2, h3⟩

theorem c1_witness :
    ∃ s1 player, ensureOnline demoThree "d" = (s1, some player) ∧
      (true = true ↔
        (holdAssign s1 "d" 3 player).occupied.length = demoThree.squaresCount ∧
        (holdAssign s1 "d" 3 player).playersOnline.length = demoThree.squaresCount) ∧
      (true = true ↔
        (handleHold demoThree "d" 3).1.currentLevel = demoThree.currentLevel + 1) :=
  c1_completion_trigger.1 demoThree (handleHold demoThree "d" 3).1 "d" 3
    (getBoardState (handleHold demoThree "d" 3).1) true demoThree_WF (by decide)

theorem c8_witness :
    handleJoin demoStart "a" =
      ((handleJoin demoStart "a").1,
        JoinResponse.success (getBoardState (handleJoin demoStart "a").1)) ∧
    getBoardState (handleJoin demoStart "a").1 =
      getBoardState (handleJoin demoStart "a").1 := by
  have heq : handleJoin demoStart "a" =
      ((handleJoin demoStart "a").1,
        JoinResponse.success (getBoardState (handleJoin demoStart "a").1)) := by
    decide
  exact ⟨heq, (c8_snapshot_shape demoStart).2.2.2.2.2.1 "a" _ _ heq⟩

/-! ### Claim C5 -/

/-- C5: in every reachable state, occupancy and held squares are
bidirectionally consistent - square i is occupied by p exactly when
online player p holds i; occupancy keys are unique; no player occupies
two squares; and every occupant is in the Presence Set. -/
theorem c5_occupancy_consistency (d : List Player) (s : GameState)
    (h : Reachable d s) :
    (∀ i pid, alistLookup s.occupied i = some pid ↔
      ∃ p, alistLookup s.playersOnline pid = some p ∧ p.squareIndex = some i) ∧
    (s.occupied.map Prod.fst).Nodup ∧
    (∀ i j pid, alistLookup s.occupied i = some pid →
      alistLookup s.occupied j = some pid → i = j) ∧
    (∀ i pid, alistLookup s.occupied i = some pid →
      (alistLookup s.playersOnline pid).isSome = true) := by
  have hWF := WF_reachable h
  have hiff : ∀ i pid, alistLookup s.occupied i = some pid ↔
      ∃ p, alistLookup s.playersOnline pid = some p ∧ p.squareIndex = some i := by
    intro i pid
    constructor
    · intro h2
      exact hWF.occOnline (i, pid) (alistLookup_mem h2)
    · intro h2
      obtain ⟨p, hp, hsq⟩ := h2
      exact hWF.onlineOcc (pid, p) (alistLookup_mem hp) i hsq
  refine ⟨hiff, hWF.occNodup, ?_, ?_⟩
  · intro i j pid h2 h3
    obtain ⟨p, hp, hsq⟩ := (hiff i pid).mp h2
    obtain ⟨p', hp', hsq'⟩ := (hiff j pid).mp h3
    rw [hp] at hp'
    injection hp' with h4
    rw [← h4] at hsq'
    rw [hsq] at hsq'
    exact Option.some.inj hsq'
  · intro i pid h2
    obtain ⟨p, hp, _⟩ := (hiff i pid).mp h2
    rw [hp]
    rfl

theorem c5_witness :
    (∀ i pid, alistLookup demoThree.occupied i = some pid ↔
      ∃ p, alistLookup demoThree.playersOnline pid = some p ∧
        p.squareIndex = some i) ∧
    (demoThree.occupied.map Prod.fst).Nodup ∧
    (∀ i j pid, alistLookup demoThree.occupied i = some pid →
      alistLookup demoThree.occupied j = some pid → i = j) ∧
    (∀ i pid, alistLookup demoThree.occupied i = some pid →
      (alistLookup demoThree.playersOnline pid).isSome = true) :=
  c5_occupancy_consistency demoDir demoThree demoThree_reachable

/-! ### Claim C10 -/

/-- C10: hold validates squareIndex only as a number in [0, squareCount):
a numeric index in range never draws InvalidSquare, and in particular the
non-integer index one half (with 0 <= 1/2 < squareCount, and 1/2 equal to
no integer) is accepted: when the other preconditions hold the call
succeeds and occupancy acquires the fractional key 1/2, an index outside
the board's integer domain. -/
theorem c10_fractional_index :
    (∀ (s s1 : GameState) (pid : String) (player : OnlinePlayer) (x : ℚ),
      pid ≠ "" → ensureOnline s pid = (s1, some player) →
      0 ≤ x → x < (s.squaresCount : ℚ) →
      (handleHold s pid x).2 ≠ HoldResponse.invalidSquareIndex) ∧
    half = 1 / 2 ∧
    (¬ ∃ n : ℤ, half = (n : ℚ)) ∧
    (0 : ℚ) ≤ half ∧ half < (demoJoined.squaresCount : ℚ) ∧
    (handleHold demoJoined "a" half).2 =
      HoldResponse.success (getBoardState (handleHold demoJoined "a" half).1) false ∧
    alistLookup (handleHold demoJoined "a" half).1.occupied half = some "a" := by
  refine ⟨?_, ?_, ?_, by decide, by decide, by decide, by decide⟩
  · intro s s1 pid player x hpid h1 hx0 hxc
    have hflds := ensureOnline_fields s pid
    rw [h1] at hflds
    obtain ⟨hfp, hfl, hfq, hfo⟩ :
        s1.players = s.players ∧ s1.currentLevel = s.currentLevel ∧
        s1.squaresCount = s.squaresCount ∧ s1.occupied = s.occupied := hflds
    have hb : ¬ (x < 0 ∨ (s1.squaresCount : ℚ) ≤ x) := by
      rw [hfq]
      push_neg
      exact ⟨hx0, hxc⟩
    by_cases hc : s1.playersOnline.length = s1.squaresCount
    · cases hh : player.squareIndex with
      | some i =>
        rw [handleHold_eq_already hpid h1 hb hc (by simp [hh])]
        simp
      | none =>
        cases ht : jsTruthy (alistLookup s1.occupied x) with
        | true =>
          rw [handleHold_eq_taken hpid h1 hb hc hh ht]
          simp
        | false =>
          rw [handleHold_eq_pass hpid h1 hb hc hh ht]
          by_cases hcl : checkLevelCompletion (holdAssign s1 pid x player) = true
          · rw [if_pos hcl]
            simp
          · simp only [Bool.not_eq_true] at hcl
            rw [hcl, if_neg (by simp)]
            simp
    · rw [handleHold_eq_closed hpid h1 hb hc]
      simp
  · show (⟨1, 2, by decide, by decide⟩ : ℚ) = 1 / 2
    rw [Rat.mk'_eq_divInt, Rat.divInt_eq_div]
    norm_num
  · intro h2
    obtain ⟨n, hn⟩ := h2
    have h3 : half.den = 1 := by
      rw [hn]
      exact Rat.den_intCast n
    exact absurd h3 (by decide)

theorem c10_witness :
    (handleHold demoJoined "a" half).2 ≠ HoldResponse.invalidSquareIndex :=
  c10_fractional_index.1 demoJoined demoJoined "a" (freshOnline (demoPlayer "a"))
    half (by decide) (by decide) (by decide) (by decide)

/-! ### Claim C2 -/

/-- C2: when a hold triggers completion, the post-state has the level
incremented by one, squareCount doubled, empty occupancy and no held
squares; the response board is the post-transition snapshot (computed
after the directory save, the durability point of the model); the
durable counter of exactly the players who were holding at the trigger -
the previously holding players and the caller - grows by one while every
other directory entry is untouched; every previously online player's
transient counter grows by the same rule and its held square is cleared;
and the caller's directory entry is credited. -/
theorem c2_completion_postconditions (s s' : GameState) (pid : String) (x : ℚ)
    (b : BoardState) (hWF : WF s)
    (h : handleHold s pid x = (s', HoldResponse.success b true)) :
    s'.currentLevel = s.currentLevel + 1 ∧
    s'.squaresCount = s.squaresCount * 2 ∧
    s'.occupied = [] ∧
    (∀ e ∈ s'.playersOnline, (e : String × OnlinePlayer).2.squareIndex = none) ∧
    b = getBoardState s' ∧
    b.level = s.currentLevel + 1 ∧
    b.squaresCount = s.squaresCount * 2 ∧
    b.occupied = [] ∧
    (∀ k st, getPlayerById s k = some st →
      getPlayerById s' k =
        some (if k = pid ∨ isHolder s.playersOnline k = true then bumpStored st
          else st)) ∧
    (∀ k p0, alistLookup s.playersOnline k = some p0 →
      ∃ p1, alistLookup s'.playersOnline k = some p1 ∧
        p1.levelsCompleted = p0.levelsCompleted +
          (if k = pid ∨ p0.squareIndex.isSome = true then 1 else 0) ∧
        p1.squareIndex = none) ∧
    (∃ st, getPlayerById s pid = some st ∧
      getPlayerById s' pid = some (bumpStored st)) := by
  obtain ⟨hpid, s1, player, h1, hb, hc, hh, ht, hcase⟩ := handleHold_success_inv h
  rcases hcase with ⟨hcl, -, hs, hbb⟩ | ⟨-, hdone, -, -⟩
  swap
  · exact absurd hdone (by simp)
  have hflds := ensureOnline_fields s pid
  rw [h1] at hflds
  obtain ⟨hfp, hfl, hfq, hfo⟩ :
      s1.players = s.players ∧ s1.currentLevel = s.currentLevel ∧
      s1.squaresCount = s.squaresCount ∧ s1.occupied = s.occupied := hflds
  have hs1WF : WF s1 := by
    have h2 : s1 = (ensureOnline s pid).1 := by rw [h1]
    rw [h2]
    exact WF_ensureOnline hWF hpid
  have hlook1 : alistLookup s1.playersOnline pid = some player :=
    ensureOnline_lookup h1
  have hplid : player.id = pid := hs1WF.lookup_id hlook1
  have ho : alistLookup s1.occupied x = none := hs1WF.jsTruthy_false ht
  have hWFA : WF (holdAssign s1 pid x player) := WF_holdAssign hs1WF hlook1 hh ho
  -- lookups into the assigned state's presence map
  have hlkA_self : alistLookup (holdAssign s1 pid x player).playersOnline pid =
      some { player with squareIndex := some x } := by
    show alistLookup (alistInsert s1.playersOnline pid _) pid = _
    exact alistLookup_insert_self ..
  have hlkA_ne : ∀ k, k ≠ pid →
      alistLookup (holdAssign s1 pid x player).playersOnline k =
        alistLookup s.playersOnline k := by
    intro k hk
    show alistLookup (alistInsert s1.playersOnline pid _) k = _
    rw [alistLookup_insert_ne _ _ _ _ hk]
    obtain ⟨st, hst, hcase2⟩ := ensureOnline_some h1
    rcases hcase2 with ⟨hp, hse⟩ | ⟨hp, hpl, hse⟩
    · rw [hse]
    · rw [hse]
      show alistLookup (alistInsert s.playersOnline pid (freshOnline st)) k = _
      rw [alistLookup_insert_ne _ _ _ _ hk]
  have hhold : ∀ k, isHolder (holdAssign s1 pid x player).playersOnline k = true ↔
      (k = pid ∨ isHolder s.playersOnline k = true) := by
    intro k
    by_cases hk : k = pid
    · subst hk
      constructor
      · intro _
        exact Or.inl rfl
      · intro _
        show isHolder (alistInsert s1.playersOnline k _) k = true
        rw [isHolder_insert_self]
        rfl
    · have h2 : isHolder (holdAssign s1 pid x player).playersOnline k =
          isHolder s.playersOnline k := by
        simp only [isHolder, hlkA_ne k hk]
      rw [h2]
      constructor
      · intro h3
        exact Or.inr h3
      · intro h3
        rcases h3 with h3 | h3
        · exact absurd h3 hk
        · exact h3
  have hlevel : s'.currentLevel = s.currentLevel + 1 := by
    rw [hs, (completeLevel_fields _).1]
    show s1.currentLevel + 1 = s.currentLevel + 1
    rw [hfl]
  have hsq : s'.squaresCount = s.squaresCount * 2 := by
    rw [hs, (completeLevel_fields _).2.1]
    show s1.squaresCount * 2 = s.squaresCount * 2
    rw [hfq]
  have hocc : s'.occupied = [] := by
    rw [hs]
    exact (completeLevel_fields _).2.2.1
  have hdur : ∀ k st, getPlayerById s k = some st →
      getPlayerById s' k =
        some (if k = pid ∨ isHolder s.playersOnline k = true then bumpStored st
          else st) := by
    intro k st hst
    rw [hs]
    have hfind := completeLevel_findPlayer hWFA k
    have hfps : findPlayer (holdAssign s1 pid x player).players k =
        findPlayer s.players k := by
      show findPlayer s1.players k = _
      rw [hfp]
    show findPlayer (completeLevel (holdAssign s1 pid x player)).players k = _
    rw [hfind, hfps]
    by_cases hcond : k = pid ∨ isHolder s.playersOnline k = true
    · rw [if_pos ((hhold k).mpr hcond), if_pos hcond]
      show (findPlayer s.players k).map bumpStored = _
      rw [show findPlayer s.players k = some st from hst]
      rfl
    · have h2 : isHolder (holdAssign s1 pid x player).playersOnline k = false := by
        cases h3 : isHolder (holdAssign s1 pid x player).playersOnline k with
        | false => rfl
        | true => exact absurd ((hhold k).mp h3) hcond
      rw [h2, if_neg hcond]
      simp only [Bool.false_eq_true, if_false]
      exact hst
  refine ⟨hlevel, hsq, hocc, ?_, hbb, ?_, ?_, ?_, hdur, ?_, ?_⟩
  · intro e he
    rw [hs, completeLevel_online] at he
    obtain ⟨a, _, hae⟩ := List.mem_map.mp he
    rw [← hae]
    rfl
  · rw [hbb]
    exact hlevel
  · rw [hbb]
    exact hsq
  · rw [hbb]
    exact hocc
  · intro k p0 hk0
    rw [hs, completeLevel_online]
    rw [alistLookup_map_value]
    by_cases hk : k = pid
    · subst hk
      obtain ⟨st, hst, hcase2⟩ := ensureOnline_some h1
      rcases hcase2 with ⟨hp, -⟩ | ⟨hp, -, -⟩
      swap
      · rw [hk0] at hp
        exact absurd hp (by simp)
      have hpp : player = p0 := by
        rw [hk0] at hp
        injection hp with h4
        exact h4.symm
      rw [hlkA_self]
      refine ⟨settleOnline { player with squareIndex := some x }, rfl, ?_, rfl⟩
      show player.levelsCompleted + (if (some x).isSome then 1 else 0) = _
      rw [hpp]
      simp
    · rw [hlkA_ne k hk, hk0]
      refine ⟨settleOnline p0, rfl, ?_, rfl⟩
      show p0.levelsCompleted + (if p0.squareIndex.isSome then 1 else 0) = _
      simp [hk]
  · obtain ⟨st, hst, -⟩ := ensureOnline_some h1
    refine ⟨st, hst, ?_⟩
    have h2 := hdur pid st hst
    rw [if_pos (Or.inl rfl)] at h2
    exact h2

theorem c2_witness :
    (handleHold demoThree "d" 3).1.currentLevel = demoThree.currentLevel + 1 ∧
    (handleHold demoThree "d" 3).1.squaresCount = demoThree.squaresCount * 2 ∧
    (handleHold demoThree "d" 3).1.occupied = [] ∧
    getPlayerById (handleHold demoThree "d" 3).1 "a" =
      some (bumpStored (demoPlayer "a")) := by
  have heq : handleHold demoThree "d" 3 =
      ((handleHold demoThree "d" 3).1,
        HoldResponse.success (getBoardState (handleHold demoThree "d" 3).1) true) := by
    decide
  have h2 := c2_completion_postconditions demoThree (handleHold demoThree "d" 3).1
    "d" 3 (getBoardState (handleHold demoThree "d" 3).1) demoThree_WF heq
  refine ⟨h2.1, h2.2.1, h2.2.2.1, ?_⟩
  have h3 := h2.2.2.2.2.2.2.2.2.1 "a" (demoPlayer "a") (by decide)
  rw [if_pos] at h3
  · exact h3
  · right
    decide

end SynergySquares
